import Mathlib

/-!
# Encoder interface of the TMC5160 (`Encoder.c`)

A shallow embedding of `InitEncoder`, `CalculateEncoderParameters`,
`GetEncoderPosition` and `SetEncoderPosition`, and the properties of the
encoder prescaler they write.

* C `int` values are integers, wrapped with `toInt32` where the C operation
  wraps (conversion of an unsigned product to `int`, `<<`, `|`, `&`, `~`).
* C `double` values are the dyadic rationals they denote (`Dbl`). Division and
  multiplication are the IEEE 754 binary64 operations: the exact result rounded
  to nearest, ties to even, with a 53-bit significand. `modf` and the
  conversions between `int` and `double` are exact or truncate toward zero.
* Operations whose behaviour the C language leaves undefined (a negative shift
  count, `abs (INT_MIN)`, a `double` to `int` conversion out of range, signed
  overflow of `-`) make the embedded function return `none`.
* `ReadTMC5160Int`, `WriteTMC5160Int`, the register and flag constants, the
  axis configuration and the microstep resolution come from other files; they
  are modelled from their description or taken as parameters (`Env`).
-/

namespace Encoder

/-! ## Machine integers -/

/-- Smallest value of a C `int` (32 bit). -/
def INT_MIN : Int := -2147483648

/-- Largest value of a C `int` (32 bit). -/
def INT_MAX : Int := 2147483647

/-- Two's-complement wrap of an integer into the range of a 32-bit `int`. -/
def toInt32 (x : Int) : Int := (x + 2147483648) % 4294967296 - 2147483648

/-- The 32-bit word (bit pattern) of an `int`. -/
def toWord (x : Int) : Nat := (x % 4294967296).toNat

/-- Bit `i` of the two's-complement representation of an `int`. -/
def bit32 (x : Int) (i : Nat) : Bool := (toWord x).testBit i

/-- C `x & y` on `int`. -/
def and32 (x y : Int) : Int := toInt32 ((toWord x &&& toWord y : Nat) : Int)

/-- C `x | y` on `int`. -/
def or32 (x y : Int) : Int := toInt32 ((toWord x ||| toWord y : Nat) : Int)

/-- C `~x` on `int`. -/
def not32 (x : Int) : Int := toInt32 (-x - 1)

/-- C `x << k` on `int` for `0 ≤ k < 32`, as the compilers of the supported
targets define it: the bit pattern is shifted and the result wraps. -/
def shl32 (x : Int) (k : Nat) : Int := toInt32 (x * 2 ^ k)

/-- Signed arithmetic result: defined only when it fits an `int`. -/
def checked32 (x : Int) : Option Int :=
  if INT_MIN ≤ x ∧ x ≤ INT_MAX then some x else none

/-- C `abs`: undefined for `INT_MIN`. -/
def abs32 (x : Int) : Option Int := checked32 (if x < 0 then -x else x)

/-! ## Doubles -/

/-- A finite `double`, given as the dyadic rational `mant / 2 ^ scale`. -/
structure Dbl where
  /-- Numerator. -/
  mant : Int
  /-- Binary logarithm of the denominator. -/
  scale : Nat
deriving Repr

/-- Auxiliary recursion of `ilog2`. -/
def ilog2Aux : Nat → Nat → Nat
  | 0, _ => 0
  | fuel + 1, n => if n < 2 then 0 else ilog2Aux fuel (n / 2) + 1

/-- Floor of the binary logarithm of a positive natural number. -/
def ilog2 (n : Nat) : Nat := ilog2Aux n n

/-- Exponent of the binade of the positive fraction `n / d`:
`2 ^ e ≤ n / d < 2 ^ (e + 1)`. -/
def binade (n d : Nat) : Int :=
  let e0 : Int := (ilog2 n : Int) - (ilog2 d : Int)
  if d * 2 ^ e0.toNat ≤ n * 2 ^ (-e0).toNat then e0 else e0 - 1

/-- Integer nearest to the fraction `n / d`, ties to the even one. -/
def roundNearestEven (n d : Nat) : Nat :=
  let q := n / d
  let r := n % d
  if 2 * r < d then q
  else if d < 2 * r then q + 1
  else if q % 2 = 0 then q else q + 1

/-- Binary64 rounding (to nearest, ties to even) of the positive fraction
`n / d`: the result is the multiple of `2 ^ (e - 52)` nearest to `n / d`, where
`e` is the binade of `n / d`, not below the smallest normal exponent `-1022`.
Values beyond the largest finite double are not modelled; every value of this
module is below `2 ^ 48`. -/
def roundPos (n d : Nat) : Dbl :=
  let t : Int := 52 - max (binade n d) (-1022)
  if 0 ≤ t then ⟨(roundNearestEven (n * 2 ^ t.toNat) d : Nat), t.toNat⟩
  else ⟨(roundNearestEven n (d * 2 ^ (-t).toNat) * 2 ^ (-t).toNat : Nat), 0⟩

/-- Binary64 rounding of the fraction `n / d`. -/
def Dbl.round (n : Int) (d : Nat) : Dbl :=
  if n = 0 ∨ d = 0 then ⟨0, 0⟩
  else if 0 < n then roundPos n.natAbs d
  else ⟨-(roundPos n.natAbs d).mant, (roundPos n.natAbs d).scale⟩

/-- Conversion `(double) i` of an `int`, which is exact. -/
def Dbl.ofInt (i : Int) : Dbl := ⟨i, 0⟩

/-- Division `x / y` of doubles, for a divisor other than zero. -/
def Dbl.div (x y : Dbl) : Dbl :=
  Dbl.round (x.mant * 2 ^ y.scale * y.mant.sign) (y.mant.natAbs * 2 ^ x.scale)

/-- Product `x * y` of doubles. -/
def Dbl.mul (x y : Dbl) : Dbl :=
  Dbl.round (x.mant * y.mant) (2 ^ (x.scale + y.scale))

/-- Integral part of a double, rounded toward zero. -/
def Dbl.trunc (x : Dbl) : Int := Int.tdiv x.mant (2 ^ x.scale)

/-- C `modf`: the fractional part (returned) and the integral part (stored
through the pointer), both with the sign of the argument. -/
def modf (x : Dbl) : Dbl × Dbl :=
  (⟨x.mant - x.trunc * 2 ^ x.scale, x.scale⟩, Dbl.ofInt x.trunc)

/-- Comparison `x == 0.0`. -/
def Dbl.isZero (x : Dbl) : Bool := decide (x.mant = 0)

/-- Conversion `(int) x`: truncation toward zero, undefined when the integral
part does not fit an `int`. -/
def Dbl.toInt (x : Dbl) : Option Int := checked32 x.trunc

/-! ## Registers and configuration -/

/-- The registers of the TMC5160 used by the encoder interface. -/
inductive Reg where
  | TMC5160_ENCMODE
  | TMC5160_XENC
  | TMC5160_ENC_CONST
deriving DecidableEq, Repr

/-- Register contents of all TMC5160 devices: device number and register to
the 32-bit value. -/
abbrev RegFile := Nat → Reg → Int

/-- Modelled from the spec: `ReadTMC5160Int` (TMC5160.c) returns the current
register content, which is the most recently written value. -/
def ReadTMC5160Int (st : RegFile) (dev : Nat) (r : Reg) : Int := st dev r

/-- Modelled from the spec: `WriteTMC5160Int` (TMC5160.c) overwrites the
whole register with the given value and touches nothing else. -/
def WriteTMC5160Int (st : RegFile) (dev : Nat) (r : Reg) (v : Int) : RegFile :=
  fun d q => if d = dev ∧ q = r then v else st d q

/-- Modelled from the spec: the per-axis motor configuration `MotorConfig[Axis]`
(stealthRocker.h), of which the encoder interface reads the signed encoder
resolution and the unsigned full step resolution of the motor. -/
structure TMotorConfig where
  /-- Encoder counts, negative for an inverted encoder direction. -/
  EncoderResolution : Int
  /-- Full steps of the motor. -/
  MotorFullStepResolution : Nat
deriving Repr

/-- What `Encoder.c` takes from its headers and from the other modules. -/
structure Env where
  /-- Number of axes, a constant within the range of the `UCHAR` loop counter
  of `InitEncoder`. -/
  N_O_MOTORS : Nat
  /-- Device number of an axis. -/
  WHICH_5160 : Nat → Nat
  /-- Mask of the decimal-mode flag in the ENCMODE register. -/
  TMC5160_EM_DECIMAL : Int
  /-- Configuration of each axis. -/
  MotorConfig : Nat → TMotorConfig
  /-- Microstep resolution exponent of a device, as read from its chopper
  configuration. -/
  GetTMC5160ChopperMStepRes : Nat → Nat

/-! ## The functions of `Encoder.c` -/

/-- Loop of `InitEncoder`: the axes `i, i + 1, ...` (`n` of them). -/
def InitEncoderLoop (env : Env) : Nat → Nat → RegFile → RegFile
  | 0, _, st => st
  | n + 1, i, st =>
    InitEncoderLoop env n (i + 1)
      (WriteTMC5160Int st (env.WHICH_5160 i) Reg.TMC5160_ENC_CONST 65536)

/-- `InitEncoder`: set the encoder constant of every axis to 1.0. -/
def InitEncoder (env : Env) (st : RegFile) : RegFile :=
  InitEncoderLoop env env.N_O_MOTORS 0 st

/-- Line 67: `(1 << (8 - mres)) * MotorFullStepResolution`, an unsigned product
stored into the `int` variable `MotorSteps`. -/
def MotorSteps (mres fullSteps : Nat) : Option Int :=
  if mres ≤ 8 then some (toInt32 ((2 ^ (8 - mres) * fullSteps : Nat) : Int)) else none

/-- `CalculateEncoderParameters`: compute the encoder multiplier from the
motor and encoder resolutions and write it with its mode flag. -/
def CalculateEncoderParameters (env : Env) (Axis : Nat) (st : RegFile) : Option RegFile :=
  let cfg := env.MotorConfig Axis
  let dev := env.WHICH_5160 Axis
  if cfg.EncoderResolution = 0 ∨ cfg.MotorFullStepResolution = 0 then
    let st1 := WriteTMC5160Int st dev Reg.TMC5160_ENCMODE
      (and32 (ReadTMC5160Int st dev Reg.TMC5160_ENCMODE) (not32 env.TMC5160_EM_DECIMAL))
    some (WriteTMC5160Int st1 dev Reg.TMC5160_ENC_CONST 65536)
  else
    (MotorSteps (env.GetTMC5160ChopperMStepRes dev) cfg.MotorFullStepResolution).bind fun steps =>
    (abs32 cfg.EncoderResolution).bind fun absEnc =>
    let EncFactor := Dbl.div (Dbl.ofInt steps) (Dbl.ofInt absEnc)
    if (modf (Dbl.mul EncFactor (Dbl.ofInt 65536))).1.isZero then
      (Dbl.toInt (Dbl.mul EncFactor (Dbl.ofInt 65536))).bind fun p =>
      (if cfg.EncoderResolution < 0 then checked32 (-p) else some p).bind fun EncPrescaler =>
      let st1 := WriteTMC5160Int st dev Reg.TMC5160_ENCMODE
        (and32 (ReadTMC5160Int st dev Reg.TMC5160_ENCMODE) (not32 env.TMC5160_EM_DECIMAL))
      some (WriteTMC5160Int st1 dev Reg.TMC5160_ENC_CONST EncPrescaler)
    else
      let EncFactorFp := (modf EncFactor).1
      let EncFactorIp := (modf EncFactor).2
      (Dbl.toInt EncFactorIp).bind fun ip =>
      (Dbl.toInt (Dbl.mul EncFactorFp (Dbl.ofInt 10000))).bind fun fp =>
      (if 0 < cfg.EncoderResolution then
        some (or32 (shl32 ip 16) fp)
      else
        (checked32 (-ip)).bind fun nip =>
        (checked32 (nip - 1)).bind fun hi =>
        (checked32 (10000 - fp)).bind fun lo =>
        some (or32 (shl32 hi 16) lo)).bind fun EncPrescaler =>
      let st1 := WriteTMC5160Int st dev Reg.TMC5160_ENCMODE
        (or32 (ReadTMC5160Int st dev Reg.TMC5160_ENCMODE) env.TMC5160_EM_DECIMAL)
      some (WriteTMC5160Int st1 dev Reg.TMC5160_ENC_CONST EncPrescaler)

/-- `GetEncoderPosition`: the value of the encoder position register. -/
def GetEncoderPosition (env : Env) (Axis : Nat) (st : RegFile) : Int :=
  ReadTMC5160Int st (env.WHICH_5160 Axis) Reg.TMC5160_XENC

/-- `SetEncoderPosition`: set the encoder position register to a new value. -/
def SetEncoderPosition (env : Env) (Axis : Nat) (Value : Int) (st : RegFile) : RegFile :=
  WriteTMC5160Int st (env.WHICH_5160 Axis) Reg.TMC5160_XENC Value

/-! ## Derived definitions used to state the properties -/

/-- The pair computed by `CalculateEncoderParameters` before its register
writes: whether the decimal mode is selected, and the value of `EncPrescaler`
(`65536` in the 1:1 case). -/
def encoderSetting (cfg : TMotorConfig) (mres : Nat) : Option (Bool × Int) :=
  if cfg.EncoderResolution = 0 ∨ cfg.MotorFullStepResolution = 0 then some (false, 65536)
  else
    (MotorSteps mres cfg.MotorFullStepResolution).bind fun steps =>
    (abs32 cfg.EncoderResolution).bind fun absEnc =>
    let EncFactor := Dbl.div (Dbl.ofInt steps) (Dbl.ofInt absEnc)
    if (modf (Dbl.mul EncFactor (Dbl.ofInt 65536))).1.isZero then
      (Dbl.toInt (Dbl.mul EncFactor (Dbl.ofInt 65536))).bind fun p =>
      (if cfg.EncoderResolution < 0 then checked32 (-p) else some p).bind fun EncPrescaler =>
      some (false, EncPrescaler)
    else
      (Dbl.toInt (modf EncFactor).2).bind fun ip =>
      (Dbl.toInt (Dbl.mul (modf EncFactor).1 (Dbl.ofInt 10000))).bind fun fp =>
      (if 0 < cfg.EncoderResolution then
        some (or32 (shl32 ip 16) fp)
      else
        (checked32 (-ip)).bind fun nip =>
        (checked32 (nip - 1)).bind fun hi =>
        (checked32 (10000 - fp)).bind fun lo =>
        some (or32 (shl32 hi 16) lo)).bind fun EncPrescaler =>
      some (true, EncPrescaler)

/-- The two register writes that end every path of
`CalculateEncoderParameters`. -/
def writeSetting (mask : Int) (dev : Nat) (st : RegFile) (r : Bool × Int) : RegFile :=
  WriteTMC5160Int
    (WriteTMC5160Int st dev Reg.TMC5160_ENCMODE
      (if r.1 then or32 (ReadTMC5160Int st dev Reg.TMC5160_ENCMODE) mask
       else and32 (ReadTMC5160Int st dev Reg.TMC5160_ENCMODE) (not32 mask)))
    dev Reg.TMC5160_ENC_CONST r.2

/-- The decimal-mode flag is clear in a value of the ENCMODE register. -/
def decimalClear (env : Env) (v : Int) : Prop := and32 v env.TMC5160_EM_DECIMAL = 0

/-- The decimal-mode flag is set in a value of the ENCMODE register. -/
def decimalSet (env : Env) (v : Int) : Prop :=
  and32 v env.TMC5160_EM_DECIMAL = toInt32 env.TMC5160_EM_DECIMAL

/-- The configurations within range, for which lines 67 and 68 are free of
overflow and of undefined behaviour: the microstep exponent is one of `0..8`,
the number of microsteps fits the `int` variable `MotorSteps`, and the encoder
resolution is an `int` other than `INT_MIN`. -/
def InRange (cfg : TMotorConfig) (mres : Nat) : Prop :=
  mres ≤ 8 ∧ 2 ^ (8 - mres) * cfg.MotorFullStepResolution < 2147483648 ∧
    -2147483648 < cfg.EncoderResolution ∧ cfg.EncoderResolution < 2147483648

instance (cfg : TMotorConfig) (mres : Nat) : Decidable (InRange cfg mres) := by
  unfold InRange; infer_instance

instance (env : Env) (v : Int) : Decidable (decimalClear env v) := by
  unfold decimalClear; infer_instance

instance (env : Env) (v : Int) : Decidable (decimalSet env v) := by
  unfold decimalSet; infer_instance

/-- Unsigned low half (bits 0..15) of a 32-bit value. -/
def low16 (v : Int) : Nat := toWord v % 65536

/-- Signed high half (bits 16..31) of a 32-bit value. -/
def high16 (v : Int) : Int := toInt32 v / 65536

/-- Scale of the double `EncFactor` for `MotorSteps = a` and
`abs(EncoderResolution) = b`: `EncFactor` is a multiple of `2 ^ (-quotScale a b)`. -/
def quotScale (a b : Nat) : Nat := (52 - binade a b).toNat

/-- Significand of the double `EncFactor` for `MotorSteps = a` and
`abs(EncoderResolution) = b`: `EncFactor = quotSig a b / 2 ^ quotScale a b`. -/
def quotSig (a b : Nat) : Nat := roundNearestEven (a * 2 ^ quotScale a b) b

/-- Scale of the double `EncFactorFp*10000.0` for `MotorSteps = a` and
`abs(EncoderResolution) = b`. -/
def fracScale (a b : Nat) : Nat :=
  (52 - binade (quotSig a b % 2 ^ quotScale a b * 10000) (2 ^ quotScale a b)).toNat

/-- Significand of the double `EncFactorFp*10000.0`. -/
def fracSig (a b : Nat) : Nat :=
  roundNearestEven (quotSig a b % 2 ^ quotScale a b * 10000 * 2 ^ fracScale a b)
    (2 ^ quotScale a b)

/-- The value `(int) (EncFactorFp*10000.0)` of lines 83 and 88 for
`MotorSteps = a` and `abs(EncoderResolution) = b`. -/
def fracField (a b : Nat) : Nat := fracSig a b / 2 ^ fracScale a b

/-- The exact ratio `motorSteps / |EncoderResolution|` of a configuration, with
`motorSteps = 2 ^ (8 - mres) * MotorFullStepResolution`. -/
def ratio (cfg : TMotorConfig) (mres : Nat) : ℚ :=
  ((2 ^ (8 - mres) * cfg.MotorFullStepResolution : Nat) : ℚ) / |(cfg.EncoderResolution : ℚ)|

/-- A board with one axis, whose device has the number of the axis, with the
decimal-mode flag at bit 10 of ENCMODE. -/
def boardEnv (enc : Int) (fullSteps mres : Nat) : Env :=
  ⟨1, fun a => a, 1024, fun _ => ⟨enc, fullSteps⟩, fun _ => mres⟩

/-- The value of a prescaler in the decimal encoding: the signed upper half
plus the unsigned lower half over 10000. -/
def decodeDecimal (v : Int) : ℚ := (high16 v : ℚ) + (low16 v : ℚ) / 10000

/-- The same board with the encoder direction of every axis inverted. -/
def invertEncoder (env : Env) : Env :=
  { env with
    MotorConfig := fun i =>
      ⟨-(env.MotorConfig i).EncoderResolution, (env.MotorConfig i).MotorFullStepResolution⟩ }

/-! ## Register file and bit lemmas -/

theorem CalculateEncoderParameters_eq (env : Env) (Axis : Nat) (st : RegFile) :
    CalculateEncoderParameters env Axis st =
      (encoderSetting (env.MotorConfig Axis)
        (env.GetTMC5160ChopperMStepRes (env.WHICH_5160 Axis))).map
        (writeSetting env.TMC5160_EM_DECIMAL (env.WHICH_5160 Axis) st) := by
  unfold CalculateEncoderParameters encoderSetting writeSetting
  by_cases h0 : (env.MotorConfig Axis).EncoderResolution = 0 ∨
      (env.MotorConfig Axis).MotorFullStepResolution = 0
  · simp [h0]
  · simp only [h0, if_false]
    cases MotorSteps (env.GetTMC5160ChopperMStepRes (env.WHICH_5160 Axis))
        (env.MotorConfig Axis).MotorFullStepResolution with
    | none => rfl
    | some steps =>
      cases abs32 (env.MotorConfig Axis).EncoderResolution with
      | none => rfl
      | some absEnc =>
        simp only [Option.bind_some, Option.some_bind]
        split
        · cases Dbl.toInt (Dbl.mul (Dbl.div (Dbl.ofInt steps) (Dbl.ofInt absEnc)) (Dbl.ofInt 65536)) with
          | none => rfl
          | some p =>
            simp only [Option.bind_some, Option.some_bind]
            cases (if (env.MotorConfig Axis).EncoderResolution < 0 then checked32 (-p) else some p) with
            | none => rfl
            | some q => simp
        · cases Dbl.toInt (modf (Dbl.div (Dbl.ofInt steps) (Dbl.ofInt absEnc))).2 with
          | none => rfl
          | some ip =>
            cases Dbl.toInt (Dbl.mul (modf (Dbl.div (Dbl.ofInt steps) (Dbl.ofInt absEnc))).1 (Dbl.ofInt 10000)) with
            | none => rfl
            | some fp =>
              simp only [Option.bind_some, Option.some_bind]
              cases (if 0 < (env.MotorConfig Axis).EncoderResolution then some (or32 (shl32 ip 16) fp)
                else (checked32 (-ip)).bind fun nip => (checked32 (nip - 1)).bind fun hi =>
                  (checked32 (10000 - fp)).bind fun lo => some (or32 (shl32 hi 16) lo)) with
              | none => rfl
              | some q => simp

theorem toWord_lt (x : Int) : toWord x < 2 ^ 32 := by
  unfold toWord; omega

theorem toWord_toInt32 (x : Int) : toWord (toInt32 x) = toWord x := by
  unfold toWord toInt32; omega

theorem toWord_natCast (w : Nat) (h : w < 2 ^ 32) : toWord (w : Int) = w := by
  unfold toWord; omega

theorem toInt32_toWord (x : Int) : toInt32 (toWord x : Int) = toInt32 x := by
  unfold toWord toInt32; omega

theorem toInt32_of_range (x : Int) (h1 : -2147483648 ≤ x) (h2 : x < 2147483648) :
    toInt32 x = x := by
  unfold toInt32; omega

theorem bit32_and32 (x y : Int) (i : Nat) :
    bit32 (and32 x y) i = (bit32 x i && bit32 y i) := by
  unfold bit32 and32
  rw [toWord_toInt32, toWord_natCast _ (Nat.and_lt_two_pow _ (toWord_lt y)), Nat.testBit_and]

theorem bit32_or32 (x y : Int) (i : Nat) :
    bit32 (or32 x y) i = (bit32 x i || bit32 y i) := by
  unfold bit32 or32
  rw [toWord_toInt32, toWord_natCast _ (Nat.or_lt_two_pow (toWord_lt x) (toWord_lt y)),
    Nat.testBit_or]

theorem bit32_not32 (x : Int) (i : Nat) :
    bit32 (not32 x) i = (decide (i < 32) && !bit32 x i) := by
  unfold bit32 not32
  rw [toWord_toInt32]
  have h : toWord (-x - 1) = 2 ^ 32 - (toWord x + 1) := by
    unfold toWord; omega
  rw [h, Nat.testBit_two_pow_sub_succ (toWord_lt x)]

theorem bit32_of_le (x : Int) (i : Nat) (h : 32 ≤ i) : bit32 x i = false := by
  unfold bit32
  exact Nat.testBit_lt_two_pow
    (lt_of_lt_of_le (toWord_lt x) (Nat.pow_le_pow_right (by norm_num) h))

theorem and32_eq_zero (x y : Int) (h : ∀ i, (bit32 x i && bit32 y i) = false) :
    and32 x y = 0 := by
  have hw : toWord x &&& toWord y = 0 := by
    apply Nat.eq_of_testBit_eq
    intro i
    rw [Nat.testBit_and, Nat.zero_testBit]
    exact h i
  unfold and32
  rw [hw]; rfl

theorem and32_eq_right (x y : Int) (h : ∀ i, bit32 y i = true → bit32 x i = true) :
    and32 x y = toInt32 y := by
  have hw : toWord x &&& toWord y = toWord y := by
    apply Nat.eq_of_testBit_eq
    intro i
    rw [Nat.testBit_and]
    have := h i
    unfold bit32 at this
    cases hy : (toWord y).testBit i
    · simp
    · simp [this hy]
  unfold and32
  rw [hw, toInt32_toWord]

theorem decimalClear_and32_not32 (env : Env) (x : Int) :
    decimalClear env (and32 x (not32 env.TMC5160_EM_DECIMAL)) := by
  unfold decimalClear
  apply and32_eq_zero
  intro i
  rw [bit32_and32, bit32_not32]
  cases bit32 env.TMC5160_EM_DECIMAL i <;> simp

theorem decimalSet_or32 (env : Env) (x : Int) :
    decimalSet env (or32 x env.TMC5160_EM_DECIMAL) := by
  unfold decimalSet
  apply and32_eq_right
  intro i hi
  rw [bit32_or32, hi]; simp

theorem writeSetting_ENCMODE (mask : Int) (dev : Nat) (st : RegFile) (r : Bool × Int) :
    writeSetting mask dev st r dev Reg.TMC5160_ENCMODE =
      if r.1 then or32 (st dev Reg.TMC5160_ENCMODE) mask
      else and32 (st dev Reg.TMC5160_ENCMODE) (not32 mask) := by
  simp [writeSetting, WriteTMC5160Int, ReadTMC5160Int]

theorem writeSetting_ENC_CONST (mask : Int) (dev : Nat) (st : RegFile) (r : Bool × Int) :
    writeSetting mask dev st r dev Reg.TMC5160_ENC_CONST = r.2 := by
  simp [writeSetting, WriteTMC5160Int]

theorem writeSetting_XENC (mask : Int) (dev d : Nat) (st : RegFile) (r : Bool × Int) :
    writeSetting mask dev st r d Reg.TMC5160_XENC = st d Reg.TMC5160_XENC := by
  simp [writeSetting, WriteTMC5160Int]

theorem writeSetting_other (mask : Int) (dev d : Nat) (q : Reg) (st : RegFile) (r : Bool × Int)
    (h : d ≠ dev) : writeSetting mask dev st r d q = st d q := by
  simp [writeSetting, WriteTMC5160Int, h]

theorem writeSetting_bit (mask : Int) (dev : Nat) (st : RegFile) (r : Bool × Int) (i : Nat)
    (h : bit32 mask i = false) :
    bit32 (writeSetting mask dev st r dev Reg.TMC5160_ENCMODE) i =
      bit32 (st dev Reg.TMC5160_ENCMODE) i := by
  rw [writeSetting_ENCMODE]
  split
  · rw [bit32_or32, h]; simp
  · rw [bit32_and32, bit32_not32, h]
    by_cases hi : i < 32
    · simp [hi]
    · rw [bit32_of_le _ i (by omega)]; simp

theorem encoderSetting_degenerate (cfg : TMotorConfig) (mres : Nat)
    (h : cfg.MotorFullStepResolution = 0 ∨ cfg.EncoderResolution = 0) :
    encoderSetting cfg mres = some (false, 65536) := by
  unfold encoderSetting
  rw [if_pos (Or.symm h)]

/-! ## Binary logarithm, binade and rounding lemmas -/

theorem ilog2Aux_spec (fuel : Nat) : ∀ n, 0 < n → n ≤ fuel →
    2 ^ ilog2Aux fuel n ≤ n ∧ n < 2 ^ (ilog2Aux fuel n + 1) := by
  induction fuel with
  | zero => intro n h1 h2; omega
  | succ f ih =>
    intro n h1 h2
    unfold ilog2Aux
    by_cases h : n < 2
    · rw [if_pos h]
      have : n = 1 := by omega
      subst this
      norm_num
    · rw [if_neg h]
      have hh := ih (n / 2) (by omega) (by omega)
      obtain ⟨ha, hb⟩ := hh
      rw [pow_succ] at hb ⊢
      rw [pow_succ]
      constructor <;> omega

theorem ilog2_spec (n : Nat) (h : 0 < n) : 2 ^ ilog2 n ≤ n ∧ n < 2 ^ (ilog2 n + 1) :=
  ilog2Aux_spec n n h le_rfl

theorem ilog2_lt_of_lt (n k : Nat) (h : 0 < n) (hk : n < 2 ^ k) : ilog2 n < k := by
  by_contra hc
  have h1 := (ilog2_spec n h).1
  have h2 : 2 ^ k ≤ 2 ^ ilog2 n := Nat.pow_le_pow_right (by norm_num) (by omega)
  omega

theorem le_ilog2_of_le (n k : Nat) (h : 0 < n) (hk : 2 ^ k ≤ n) : k ≤ ilog2 n := by
  by_contra hc
  have h1 := (ilog2_spec n h).2
  have h2 : 2 ^ (ilog2 n + 1) ≤ 2 ^ k := Nat.pow_le_pow_right (by norm_num) (by omega)
  omega

theorem binade_le (n d : Nat) : binade n d ≤ (ilog2 n : Int) - (ilog2 d : Int) := by
  unfold binade
  simp only
  split <;> omega

theorem le_binade (n d : Nat) : (ilog2 n : Int) - (ilog2 d : Int) - 1 ≤ binade n d := by
  unfold binade
  simp only
  split <;> omega

theorem roundNearestEven_mul (k d : Nat) (h : 0 < d) : roundNearestEven (k * d) d = k := by
  unfold roundNearestEven
  simp only [Nat.mul_mod_left, Nat.mul_div_cancel _ h]
  rw [if_pos (by omega)]

theorem roundNearestEven_spec (n d : Nat) (h : 0 < d) :
    2 * (roundNearestEven n d * d) ≤ 2 * n + d ∧ 2 * n ≤ 2 * (roundNearestEven n d * d) + d := by
  have hdm := Nat.div_add_mod n d
  have hr := Nat.mod_lt n h
  have hq : n / d * d = d * (n / d) := Nat.mul_comm _ _
  have hq1 : (n / d + 1) * d = d * (n / d) + d := by ring
  unfold roundNearestEven
  simp only
  split
  · rw [hq]; constructor <;> omega
  · split
    · rw [hq1]; constructor <;> omega
    · split
      · rw [hq]; constructor <;> omega
      · rw [hq1]; constructor <;> omega

theorem scaled_le_iff (n d : Nat) (e : Int) :
    d * 2 ^ e.toNat ≤ n * 2 ^ (-e).toNat ↔ (d : ℚ) * 2 ^ e ≤ n := by
  rcases le_total 0 e with h | h
  · lift e to ℕ using h with k
    rw [Int.toNat_natCast, Int.toNat_neg_nat, zpow_natCast, pow_zero, mul_one]
    exact_mod_cast Iff.rfl
  · obtain ⟨k, rfl⟩ : ∃ k : ℕ, e = -(k : ℤ) := ⟨(-e).toNat, by omega⟩
    rw [Int.toNat_neg_nat, neg_neg, Int.toNat_natCast, zpow_neg, zpow_natCast, pow_zero, mul_one]
    have hk : (0 : ℚ) < 2 ^ k := by positivity
    rw [← div_eq_mul_inv, div_le_iff₀ hk]
    exact_mod_cast Iff.rfl

theorem ilog2_spec_rat (n : Nat) (h : 0 < n) :
    (2 : ℚ) ^ (ilog2 n : ℤ) ≤ n ∧ (n : ℚ) < 2 ^ ((ilog2 n : ℤ) + 1) := by
  obtain ⟨h1, h2⟩ := ilog2_spec n h
  constructor
  · rw [zpow_natCast]; exact_mod_cast h1
  · have : ((ilog2 n : ℤ) + 1) = ((ilog2 n + 1 : ℕ) : ℤ) := by push_cast; ring
    rw [this, zpow_natCast]; exact_mod_cast h2

theorem binade_spec (n d : Nat) (hn : 0 < n) (hd : 0 < d) :
    (d : ℚ) * 2 ^ binade n d ≤ n ∧ (n : ℚ) < d * 2 ^ (binade n d + 1) := by
  obtain ⟨n1, n2⟩ := ilog2_spec_rat n hn
  obtain ⟨d1, d2⟩ := ilog2_spec_rat d hd
  have hd0 : (0 : ℚ) < d := by exact_mod_cast hd
  have two : (2 : ℚ) ≠ 0 := by norm_num
  unfold binade
  simp only
  split
  · rename_i hc
    rw [scaled_le_iff] at hc
    refine ⟨hc, ?_⟩
    have e1 : (2 : ℚ) ^ ((ilog2 n : ℤ) - (ilog2 d : ℤ) + 1) =
        2 ^ ((ilog2 n : ℤ) + 1) / 2 ^ (ilog2 d : ℤ) := by
      rw [← zpow_sub₀ two]; congr 1; ring
    rw [e1]
    have hp : (0 : ℚ) < 2 ^ (ilog2 d : ℤ) := by positivity
    calc (n : ℚ) < 2 ^ ((ilog2 n : ℤ) + 1) := n2
      _ = 2 ^ (ilog2 d : ℤ) * (2 ^ ((ilog2 n : ℤ) + 1) / 2 ^ (ilog2 d : ℤ)) := by
          field_simp
      _ ≤ d * (2 ^ ((ilog2 n : ℤ) + 1) / 2 ^ (ilog2 d : ℤ)) := by
          apply mul_le_mul_of_nonneg_right d1; positivity
  · rename_i hc
    rw [scaled_le_iff, not_le] at hc
    refine ⟨?_, ?_⟩
    · have e1 : (2 : ℚ) ^ ((ilog2 n : ℤ) - (ilog2 d : ℤ) - 1) =
          2 ^ (ilog2 n : ℤ) / 2 ^ ((ilog2 d : ℤ) + 1) := by
        rw [← zpow_sub₀ two]; congr 1; ring
      rw [e1]
      have hp : (0 : ℚ) < 2 ^ ((ilog2 d : ℤ) + 1) := by positivity
      calc (d : ℚ) * (2 ^ (ilog2 n : ℤ) / 2 ^ ((ilog2 d : ℤ) + 1))
          ≤ 2 ^ ((ilog2 d : ℤ) + 1) * (2 ^ (ilog2 n : ℤ) / 2 ^ ((ilog2 d : ℤ) + 1)) := by
            apply mul_le_mul_of_nonneg_right (le_of_lt d2); positivity
        _ = 2 ^ (ilog2 n : ℤ) := by field_simp
        _ ≤ n := n1
    · have : (ilog2 n : ℤ) - (ilog2 d : ℤ) - 1 + 1 = (ilog2 n : ℤ) - (ilog2 d : ℤ) := by ring
      rw [this]; exact hc

/-- Scaling by `2 ^ (52 - e)` moves the fraction into `[2 ^ 52, 2 ^ 53)`. -/
theorem binade_scaled (n d : Nat) (hn : 0 < n) (hd : 0 < d) (he : binade n d ≤ 52) :
    d * 2 ^ 52 ≤ n * 2 ^ (52 - binade n d).toNat ∧
      n * 2 ^ (52 - binade n d).toNat < d * 2 ^ 53 := by
  obtain ⟨h1, h2⟩ := binade_spec n d hn hd
  have two : (2 : ℚ) ≠ 0 := by norm_num
  have hT : (2 : ℚ) ^ (52 - binade n d).toNat = 2 ^ (52 - binade n d) := by
    rw [← zpow_natCast, Int.toNat_of_nonneg (by omega)]
  have hp : (0 : ℚ) < 2 ^ (52 - binade n d) := by positivity
  have a1 : (2 : ℚ) ^ binade n d * 2 ^ (52 - binade n d) = 2 ^ 52 := by
    rw [← zpow_add₀ two]; norm_num
  have a2 : (2 : ℚ) ^ (binade n d + 1) * 2 ^ (52 - binade n d) = 2 ^ 53 := by
    rw [← zpow_add₀ two]
    have : binade n d + 1 + (52 - binade n d) = 53 := by ring
    rw [this]; norm_num
  constructor
  · have : (d : ℚ) * 2 ^ 52 ≤ n * 2 ^ (52 - binade n d).toNat := by
      rw [hT, ← a1, ← mul_assoc]
      exact mul_le_mul_of_nonneg_right h1 (le_of_lt hp)
    exact_mod_cast this
  · have : (n : ℚ) * 2 ^ (52 - binade n d).toNat < d * 2 ^ 53 := by
      rw [hT, ← a2, ← mul_assoc]
      exact mul_lt_mul_of_pos_right h2 hp
    exact_mod_cast this

theorem roundPos_eq (n d : Nat) (h1 : -1022 ≤ binade n d) (h2 : binade n d ≤ 52) :
    roundPos n d =
      ⟨(roundNearestEven (n * 2 ^ (52 - binade n d).toNat) d : Nat), (52 - binade n d).toNat⟩ := by
  unfold roundPos
  simp only
  rw [max_eq_left h1, if_pos (by omega)]

theorem round_natCast (n d : Nat) (hn : 0 < n) (hd : 0 < d) :
    Dbl.round (n : Int) d = roundPos n d := by
  unfold Dbl.round
  rw [if_neg (by omega), if_pos (by omega), Int.natAbs_ofNat]

theorem div_ofInt (a b : Nat) (ha : 0 < a) (hb : 0 < b) :
    Dbl.div (Dbl.ofInt (a : Int)) (Dbl.ofInt (b : Int)) = roundPos a b := by
  unfold Dbl.div Dbl.ofInt
  simp only [pow_zero, mul_one, Int.natAbs_ofNat]
  rw [Int.sign_eq_one_of_pos (by omega), mul_one, round_natCast a b ha hb]

theorem mul_ofInt (m : Nat) (c : Nat) (T : Nat) (hm : 0 < m) (hc : 0 < c) :
    Dbl.mul ⟨(m : Int), T⟩ (Dbl.ofInt (c : Int)) = roundPos (m * c) (2 ^ T) := by
  unfold Dbl.mul Dbl.ofInt
  simp only [add_zero]
  rw [← Nat.cast_mul, round_natCast _ _ (Nat.mul_pos hm hc) (by positivity)]

theorem ilog2_two_pow (T : Nat) : ilog2 (2 ^ T) = T := by
  have h := ilog2_spec (2 ^ T) (by positivity)
  have h1 : ilog2 (2 ^ T) ≤ T := by
    by_contra hc
    have : 2 ^ (T + 1) ≤ 2 ^ ilog2 (2 ^ T) := Nat.pow_le_pow_right (by norm_num) (by omega)
    have h3 : 2 ^ T < 2 ^ (T + 1) := Nat.pow_lt_pow_right (by norm_num) (by omega)
    omega
  have h2 : T ≤ ilog2 (2 ^ T) := le_ilog2_of_le _ _ (by positivity) le_rfl
  omega

/-- The range of the binade of a quotient of two positive `int` values. -/
theorem binade_int_range (a b : Nat) (ha : 0 < a) (hb : 0 < b)
    (ha2 : a < 2147483648) (hb2 : b < 2147483648) :
    -31 ≤ binade a b ∧ binade a b ≤ 30 - (ilog2 b : Int) := by
  have h1 := ilog2_lt_of_lt a 31 ha (by norm_num; exact ha2)
  have h2 := ilog2_lt_of_lt b 31 hb (by norm_num; exact hb2)
  have h3 := binade_le a b
  have h4 := le_binade a b
  constructor <;> omega

/-- The quantum `2 ^ (-T)` of the rounded quotient is far below `1 / b`. -/
theorem quantum_small (a b : Nat) (ha : 0 < a) (hb : 0 < b)
    (ha2 : a < 2147483648) (hb2 : b < 2147483648) :
    b * 2 ^ 21 < 2 ^ (52 - binade a b).toNat := by
  obtain ⟨h1, h2⟩ := binade_int_range a b ha hb ha2 hb2
  have hb3 := (ilog2_spec b hb).2
  have hle : 22 + ilog2 b ≤ (52 - binade a b).toNat := by omega
  have hp : 2 ^ (22 + ilog2 b) ≤ 2 ^ (52 - binade a b).toNat :=
    Nat.pow_le_pow_right (by norm_num) hle
  have e : 2 ^ (22 + ilog2 b) = 2 ^ (ilog2 b + 1) * 2 ^ 21 := by
    rw [← pow_add]; congr 1; omega
  rw [e] at hp
  have : b * 2 ^ 21 < 2 ^ (ilog2 b + 1) * 2 ^ 21 := Nat.mul_lt_mul_of_pos_right hb3 (by positivity)
  omega

theorem trunc_natCast (X S : Nat) : Dbl.trunc ⟨(X : Int), S⟩ = ((X / 2 ^ S : Nat) : Int) := by
  unfold Dbl.trunc
  simp only
  rw [Int.ofNat_tdiv]
  norm_cast

theorem natCast_sub_div_mul (X S : Nat) :
    (X : Int) - ((X / 2 ^ S : Nat) : Int) * 2 ^ S = ((X % 2 ^ S : Nat) : Int) := by
  have h := Nat.div_add_mod X (2 ^ S)
  have hp : ((2 : Int) ^ S) = ((2 ^ S : Nat) : Int) := by push_cast; rfl
  rw [hp]
  generalize X / 2 ^ S = q at *
  generalize X % 2 ^ S = r at *
  generalize 2 ^ S = P at *
  subst h
  push_cast
  ring

theorem modf_natCast_isZero (X S : Nat) :
    (modf ⟨(X : Int), S⟩).1.isZero = decide (X % 2 ^ S = 0) := by
  unfold modf Dbl.isZero
  simp only
  rw [trunc_natCast, natCast_sub_div_mul]
  simp only [Nat.cast_eq_zero]

theorem modf_natCast_fst (X S : Nat) :
    (modf ⟨(X : Int), S⟩).1 = ⟨((X % 2 ^ S : Nat) : Int), S⟩ := by
  unfold modf
  simp only
  rw [trunc_natCast, natCast_sub_div_mul]

theorem modf_natCast_snd (X S : Nat) :
    (modf ⟨(X : Int), S⟩).2 = Dbl.ofInt ((X / 2 ^ S : Nat) : Int) := by
  unfold modf
  simp only
  rw [trunc_natCast]

/-- The significand of the rounded quotient of two positive `int` values. -/
theorem sig_bounds (a b : Nat) (ha : 0 < a) (hb : 0 < b)
    (ha2 : a < 2147483648) (hb2 : b < 2147483648) :
    2 ^ 52 ≤ roundNearestEven (a * 2 ^ (52 - binade a b).toNat) b ∧
      roundNearestEven (a * 2 ^ (52 - binade a b).toNat) b < 2 ^ 53 := by
  obtain ⟨e1, e2⟩ := binade_int_range a b ha hb ha2 hb2
  obtain ⟨s1, s2⟩ := binade_scaled a b ha hb (by omega)
  obtain ⟨r1, r2⟩ := roundNearestEven_spec (a * 2 ^ (52 - binade a b).toNat) b hb
  have hq := quantum_small a b ha hb ha2 hb2
  generalize (52 - binade a b).toNat = T at *
  generalize hM : roundNearestEven (a * 2 ^ T) b = M at *
  constructor
  · by_contra hc
    have h1 : (M + 1) * b ≤ 2 ^ 52 * b := Nat.mul_le_mul_right b (by omega)
    have h2 : (M + 1) * b = M * b + b := by ring
    have h3 : 2 ^ 52 * b = b * 2 ^ 52 := Nat.mul_comm _ _
    omega
  · by_contra hc
    have h1 : 2 ^ 53 * b ≤ M * b := Nat.mul_le_mul_right b (by omega)
    have h3 : 2 ^ 53 * b = b * 2 ^ 53 := Nat.mul_comm _ _
    have gap : a * 2 ^ T + b ≤ b * 2 ^ 53 := by
      rcases le_total T 53 with hT | hT
      · obtain ⟨k, hk⟩ : ∃ k, T + k = 53 := ⟨53 - T, by omega⟩
        have e : b * 2 ^ 53 = (b * 2 ^ k) * 2 ^ T := by rw [← hk, pow_add]; ring
        rw [e] at s2 ⊢
        have h5 : a < b * 2 ^ k := lt_of_mul_lt_mul_right s2 (Nat.zero_le _)
        have h6 : (a + 1) * 2 ^ T ≤ (b * 2 ^ k) * 2 ^ T := Nat.mul_le_mul_right _ h5
        have h7 : (a + 1) * 2 ^ T = a * 2 ^ T + 2 ^ T := by ring
        omega
      · obtain ⟨k, rfl⟩ : ∃ k, T = 53 + k := ⟨T - 53, by omega⟩
        have e : a * 2 ^ (53 + k) = (a * 2 ^ k) * 2 ^ 53 := by rw [pow_add]; ring
        rw [e] at s2 ⊢
        have h5 : a * 2 ^ k < b := lt_of_mul_lt_mul_right s2 (Nat.zero_le _)
        have h6 : (a * 2 ^ k + 1) * 2 ^ 53 ≤ b * 2 ^ 53 := Nat.mul_le_mul_right _ h5
        have h7 : (a * 2 ^ k + 1) * 2 ^ 53 = a * 2 ^ k * 2 ^ 53 + 2 ^ 53 := by ring
        omega
    omega

/-- Multiplication of a double by `65536.0` is exact. -/
theorem mul_65536 (M T : Nat) (hM1 : 2 ^ 52 ≤ M) (hM2 : M < 2 ^ 53) (hT1 : 16 ≤ T)
    (hT2 : T ≤ 200) :
    ∃ j, Dbl.mul ⟨(M : Int), T⟩ (Dbl.ofInt 65536) = ⟨((M * 2 ^ j : Nat) : Int), j + (T - 16)⟩ := by
  have h := mul_ofInt M 65536 T (by omega) (by norm_num)
  simp only [Nat.cast_ofNat] at h
  rw [h]
  have hpos : 0 < M * 65536 := by omega
  have i1 : 68 ≤ ilog2 (M * 65536) := le_ilog2_of_le _ _ hpos (by omega)
  have i2 : ilog2 (M * 65536) < 69 := ilog2_lt_of_lt _ _ hpos (by omega)
  have b1 := binade_le (M * 65536) (2 ^ T)
  have b2 := le_binade (M * 65536) (2 ^ T)
  rw [ilog2_two_pow] at b1 b2
  rw [roundPos_eq _ _ (by omega) (by omega)]
  obtain ⟨j, hj⟩ : ∃ j, (52 - binade (M * 65536) (2 ^ T)).toNat = j + (T - 16) :=
    ⟨(52 - binade (M * 65536) (2 ^ T)).toNat - (T - 16), by omega⟩
  refine ⟨j, ?_⟩
  rw [hj]
  have e : M * 65536 * 2 ^ (j + (T - 16)) = (M * 2 ^ j) * 2 ^ T := by
    have : (65536 : Nat) * 2 ^ (T - 16) = 2 ^ T := by
      have : (65536 : Nat) = 2 ^ 16 := by norm_num
      rw [this, ← pow_add]; congr 1; omega
    rw [pow_add]
    calc M * 65536 * (2 ^ j * 2 ^ (T - 16)) = (M * 2 ^ j) * (65536 * 2 ^ (T - 16)) := by ring
      _ = (M * 2 ^ j) * 2 ^ T := by rw [this]
  rw [e, roundNearestEven_mul _ _ (by positivity)]

/-- The test `modf(EncFactor*65536.0, &EncFactorIp)==0.0` and the value
`(int) (EncFactor*65536.0)` in terms of the significand of `EncFactor`. -/
theorem test_65536 (M T : Nat) (hM1 : 2 ^ 52 ≤ M) (hM2 : M < 2 ^ 53) (hT1 : 16 ≤ T)
    (hT2 : T ≤ 200) :
    (modf (Dbl.mul ⟨(M : Int), T⟩ (Dbl.ofInt 65536))).1.isZero = decide (M % 2 ^ (T - 16) = 0) ∧
      (Dbl.mul ⟨(M : Int), T⟩ (Dbl.ofInt 65536)).trunc = ((M / 2 ^ (T - 16) : Nat) : Int) := by
  obtain ⟨j, hj⟩ := mul_65536 M T hM1 hM2 hT1 hT2
  rw [hj, modf_natCast_isZero, trunc_natCast]
  have e1 : M * 2 ^ j = 2 ^ j * M := Nat.mul_comm _ _
  rw [pow_add, e1, Nat.mul_mod_mul_left, Nat.mul_div_mul_left _ _ (by positivity)]
  have hp : 0 < 2 ^ j := by positivity
  constructor
  · congr 1
    apply propext
    constructor
    · intro hx
      rcases Nat.mul_eq_zero.mp hx with h | h
      · omega
      · exact h
    · intro hx; rw [hx]; rfl
  · rfl

/-! ## The quotient `EncFactor` and the exactness test -/

theorem quotScale_range (a b : Nat) (ha : 0 < a) (hb : 0 < b)
    (ha2 : a < 2147483648) (hb2 : b < 2147483648) :
    22 ≤ quotScale a b ∧ quotScale a b ≤ 83 := by
  obtain ⟨e1, e2⟩ := binade_int_range a b ha hb ha2 hb2
  unfold quotScale
  constructor <;> omega

theorem encFactor_eq (a b : Nat) (ha : 0 < a) (hb : 0 < b)
    (ha2 : a < 2147483648) (hb2 : b < 2147483648) :
    Dbl.div (Dbl.ofInt (a : Int)) (Dbl.ofInt (b : Int)) =
      ⟨(quotSig a b : Int), quotScale a b⟩ := by
  obtain ⟨e1, e2⟩ := binade_int_range a b ha hb ha2 hb2
  rw [div_ofInt a b ha hb, roundPos_eq a b (by omega) (by omega)]
  rfl

theorem quotSig_bounds (a b : Nat) (ha : 0 < a) (hb : 0 < b)
    (ha2 : a < 2147483648) (hb2 : b < 2147483648) :
    2 ^ 52 ≤ quotSig a b ∧ quotSig a b < 2 ^ 53 :=
  sig_bounds a b ha hb ha2 hb2

theorem quotSig_spec (a b : Nat) (hb : 0 < b) :
    2 * (quotSig a b * b) ≤ 2 * (a * 2 ^ quotScale a b) + b ∧
      2 * (a * 2 ^ quotScale a b) ≤ 2 * (quotSig a b * b) + b :=
  roundNearestEven_spec _ b hb

theorem quotScale_small (a b : Nat) (ha : 0 < a) (hb : 0 < b)
    (ha2 : a < 2147483648) (hb2 : b < 2147483648) :
    b * 2 ^ 21 < 2 ^ quotScale a b :=
  quantum_small a b ha hb ha2 hb2

theorem two_pow_split (T : Nat) (h : 16 ≤ T) : 2 ^ T = 65536 * 2 ^ (T - 16) := by
  have : (65536 : Nat) = 2 ^ 16 := by norm_num
  rw [this, ← pow_add]; congr 1; omega

/-- A quotient that is a multiple of `1 / 65536` is represented exactly. -/
theorem quotSig_exact (a b N : Nat) (ha : 0 < a) (hb : 0 < b)
    (ha2 : a < 2147483648) (hb2 : b < 2147483648) (h : a * 65536 = N * b) :
    quotSig a b = N * 2 ^ (quotScale a b - 16) := by
  obtain ⟨t1, t2⟩ := quotScale_range a b ha hb ha2 hb2
  unfold quotSig
  have e : a * 2 ^ quotScale a b = (N * 2 ^ (quotScale a b - 16)) * b := by
    rw [two_pow_split _ (by omega : 16 ≤ quotScale a b)]
    calc a * (65536 * 2 ^ (quotScale a b - 16)) = (a * 65536) * 2 ^ (quotScale a b - 16) := by ring
      _ = (N * b) * 2 ^ (quotScale a b - 16) := by rw [h]
      _ = (N * 2 ^ (quotScale a b - 16)) * b := by ring
  rw [e, roundNearestEven_mul _ _ hb]

/-- A quotient that is not a multiple of `1 / 65536` is not rounded to one. -/
theorem quotSig_nonexact (a b : Nat) (ha : 0 < a) (hb : 0 < b)
    (ha2 : a < 2147483648) (hb2 : b < 2147483648) (h : ¬ b ∣ a * 65536) :
    quotSig a b % 2 ^ (quotScale a b - 16) ≠ 0 := by
  obtain ⟨t1, t2⟩ := quotScale_range a b ha hb ha2 hb2
  obtain ⟨r1, r2⟩ := quotSig_spec a b hb
  have hq := quotScale_small a b ha hb ha2 hb2
  intro hz
  have hsplit := two_pow_split (quotScale a b) (by omega)
  have hdm := Nat.div_add_mod (quotSig a b) (2 ^ (quotScale a b - 16))
  rw [hz, add_zero] at hdm
  generalize quotSig a b / 2 ^ (quotScale a b - 16) = k at hdm
  generalize 2 ^ (quotScale a b - 16) = P at *
  rw [hsplit] at r1 r2 hq
  rw [← hdm] at r1 r2
  have hne : k * b ≠ a * 65536 := by
    intro he
    exact h ⟨k, by rw [← he]; ring⟩
  have e1 : P * k * b = P * (k * b) := by ring
  have e2 : a * (65536 * P) = P * (a * 65536) := by ring
  rw [e1, e2] at r1 r2
  rcases Nat.lt_or_gt_of_ne hne with hlt | hgt
  · have : P * (k * b + 1) ≤ P * (a * 65536) := Nat.mul_le_mul_left P hlt
    rw [Nat.mul_add, Nat.mul_one] at this
    omega
  · have : P * (a * 65536 + 1) ≤ P * (k * b) := Nat.mul_le_mul_left P hgt
    rw [Nat.mul_add, Nat.mul_one] at this
    omega

/-- The test of line 70 succeeds exactly when the quotient of the two integers
is a multiple of `1 / 65536`. -/
theorem exact_test (a b : Nat) (ha : 0 < a) (hb : 0 < b)
    (ha2 : a < 2147483648) (hb2 : b < 2147483648) :
    (modf (Dbl.mul (Dbl.div (Dbl.ofInt (a : Int)) (Dbl.ofInt (b : Int)))
      (Dbl.ofInt 65536))).1.isZero = decide (b ∣ a * 65536) := by
  obtain ⟨t1, t2⟩ := quotScale_range a b ha hb ha2 hb2
  obtain ⟨m1, m2⟩ := quotSig_bounds a b ha hb ha2 hb2
  rw [encFactor_eq a b ha hb ha2 hb2,
    (test_65536 (quotSig a b) (quotScale a b) m1 m2 (by omega) (by omega)).1]
  by_cases hd : b ∣ a * 65536
  · obtain ⟨N, hN⟩ := hd
    have := quotSig_exact a b N ha hb ha2 hb2 (by rw [hN]; ring)
    rw [this]
    simp [Nat.mul_mod_left, hN]
  · have := quotSig_nonexact a b ha hb ha2 hb2 hd
    simp [this, hd]

/-- The value of `(int) (EncFactor*65536.0)` in the exact case. -/
theorem exact_value (a b N : Nat) (ha : 0 < a) (hb : 0 < b)
    (ha2 : a < 2147483648) (hb2 : b < 2147483648) (h : a * 65536 = N * b) :
    (Dbl.mul (Dbl.div (Dbl.ofInt (a : Int)) (Dbl.ofInt (b : Int))) (Dbl.ofInt 65536)).trunc
      = (N : Int) := by
  obtain ⟨t1, t2⟩ := quotScale_range a b ha hb ha2 hb2
  obtain ⟨m1, m2⟩ := quotSig_bounds a b ha hb ha2 hb2
  rw [encFactor_eq a b ha hb ha2 hb2,
    (test_65536 (quotSig a b) (quotScale a b) m1 m2 (by omega) (by omega)).2,
    quotSig_exact a b N ha hb ha2 hb2 h, Nat.mul_div_cancel _ (by positivity)]

/-! ## The integral and the fractional part of `EncFactor` -/

/-- The integral part of the rounded quotient is the integer quotient. -/
theorem quotSig_div (a b : Nat) (ha : 0 < a) (hb : 0 < b)
    (ha2 : a < 2147483648) (hb2 : b < 2147483648) :
    quotSig a b / 2 ^ quotScale a b = a / b := by
  obtain ⟨r1, r2⟩ := quotSig_spec a b hb
  have hq := quotScale_small a b ha hb ha2 hb2
  have hdm := Nat.div_add_mod a b
  have hr := Nat.mod_lt a hb
  generalize quotSig a b = M at *
  generalize 2 ^ quotScale a b = A at *
  generalize a / b = I at *
  generalize a % b = r at *
  have hA : 0 < A := by omega
  have ea : a * A = I * A * b + r * A := by rw [← hdm]; ring
  apply Nat.div_eq_of_lt_le
  · by_contra hc
    have h1 : (M + 1) * b ≤ I * A * b := Nat.mul_le_mul_right b (by omega)
    have h2 : (M + 1) * b = M * b + b := by ring
    omega
  · by_contra hc
    have h1 : (I + 1) * A * b ≤ M * b := Nat.mul_le_mul_right b (by omega)
    have h2 : (I + 1) * A * b = I * A * b + A * b := by ring
    have h3 : (r + 1) * A ≤ b * A := Nat.mul_le_mul_right A (by omega)
    have h4 : (r + 1) * A = r * A + A := by ring
    have h5 : b * A = A * b := Nat.mul_comm _ _
    omega

/-- The fractional part of the rounded quotient is within half a quantum of
the fractional part of the quotient. -/
theorem quotSig_mod (a b : Nat) (ha : 0 < a) (hb : 0 < b)
    (ha2 : a < 2147483648) (hb2 : b < 2147483648) :
    2 * (quotSig a b % 2 ^ quotScale a b * b) ≤ 2 * (a % b * 2 ^ quotScale a b) + b ∧
      2 * (a % b * 2 ^ quotScale a b) ≤ 2 * (quotSig a b % 2 ^ quotScale a b * b) + b := by
  obtain ⟨r1, r2⟩ := quotSig_spec a b hb
  have hI := quotSig_div a b ha hb ha2 hb2
  have hdm := Nat.div_add_mod a b
  have hdm2 := Nat.div_add_mod (quotSig a b) (2 ^ quotScale a b)
  rw [hI] at hdm2
  generalize quotSig a b % 2 ^ quotScale a b = n at *
  generalize quotSig a b = M at *
  generalize 2 ^ quotScale a b = A at *
  generalize a / b = I at *
  generalize a % b = r at *
  have ea : a * A = I * A * b + r * A := by rw [← hdm]; ring
  have eM : M * b = I * A * b + n * b := by rw [← hdm2]; ring
  constructor <;> omega

theorem quotSig_mod_pos (a b : Nat) (ha : 0 < a) (hb : 0 < b)
    (ha2 : a < 2147483648) (hb2 : b < 2147483648) (h : a % b ≠ 0) :
    0 < quotSig a b % 2 ^ quotScale a b := by
  obtain ⟨r1, r2⟩ := quotSig_mod a b ha hb ha2 hb2
  have hq := quotScale_small a b ha hb ha2 hb2
  by_contra hc
  have hz : quotSig a b % 2 ^ quotScale a b = 0 := by omega
  rw [hz] at r2
  have h1 : 1 * 2 ^ quotScale a b ≤ a % b * 2 ^ quotScale a b :=
    Nat.mul_le_mul_right _ (by omega)
  omega

theorem fracScale_range (a b : Nat) (ha : 0 < a) (hb : 0 < b)
    (ha2 : a < 2147483648) (hb2 : b < 2147483648) (h : a % b ≠ 0) :
    39 ≤ fracScale a b ∧ fracScale a b ≤ 123 ∧
      -1022 ≤ binade (quotSig a b % 2 ^ quotScale a b * 10000) (2 ^ quotScale a b) ∧
      binade (quotSig a b % 2 ^ quotScale a b * 10000) (2 ^ quotScale a b) ≤ 52 := by
  obtain ⟨t1, t2⟩ := quotScale_range a b ha hb ha2 hb2
  have hn := quotSig_mod_pos a b ha hb ha2 hb2 h
  have hlt := Nat.mod_lt (quotSig a b) (show 0 < 2 ^ quotScale a b by positivity)
  have b1 := binade_le (quotSig a b % 2 ^ quotScale a b * 10000) (2 ^ quotScale a b)
  have b2 := le_binade (quotSig a b % 2 ^ quotScale a b * 10000) (2 ^ quotScale a b)
  rw [ilog2_two_pow] at b1 b2
  unfold fracScale
  generalize quotSig a b % 2 ^ quotScale a b = n at *
  have hpos : 0 < n * 10000 := by omega
  have i1 : 13 ≤ ilog2 (n * 10000) := le_ilog2_of_le _ _ hpos (by norm_num; omega)
  have i2 : ilog2 (n * 10000) < quotScale a b + 14 := by
    apply ilog2_lt_of_lt _ _ hpos
    rw [pow_add]
    have : n * 10000 < 2 ^ quotScale a b * 10000 := Nat.mul_lt_mul_of_pos_right hlt (by norm_num)
    have : 2 ^ quotScale a b * 10000 ≤ 2 ^ quotScale a b * 2 ^ 14 :=
      Nat.mul_le_mul_left _ (by norm_num)
    omega
  refine ⟨?_, ?_, ?_, ?_⟩ <;> omega

/-- The double `EncFactorFp*10000.0`. -/
theorem frac_mul_eq (a b : Nat) (ha : 0 < a) (hb : 0 < b)
    (ha2 : a < 2147483648) (hb2 : b < 2147483648) (h : a % b ≠ 0) :
    Dbl.mul (modf (Dbl.div (Dbl.ofInt (a : Int)) (Dbl.ofInt (b : Int)))).1 (Dbl.ofInt 10000) =
      ⟨(fracSig a b : Int), fracScale a b⟩ := by
  obtain ⟨f1, f2, f3, f4⟩ := fracScale_range a b ha hb ha2 hb2 h
  have hn := quotSig_mod_pos a b ha hb ha2 hb2 h
  rw [encFactor_eq a b ha hb ha2 hb2, modf_natCast_fst]
  have hm := mul_ofInt (quotSig a b % 2 ^ quotScale a b) 10000 (quotScale a b) hn (by norm_num)
  simp only [Nat.cast_ofNat] at hm
  rw [hm, roundPos_eq _ _ f3 f4]
  rfl

theorem fracSig_spec (a b : Nat) :
    2 * (fracSig a b * 2 ^ quotScale a b) ≤
        2 * (quotSig a b % 2 ^ quotScale a b * 10000 * 2 ^ fracScale a b) + 2 ^ quotScale a b ∧
      2 * (quotSig a b % 2 ^ quotScale a b * 10000 * 2 ^ fracScale a b) ≤
        2 * (fracSig a b * 2 ^ quotScale a b) + 2 ^ quotScale a b :=
  roundNearestEven_spec _ _ (by positivity)

/-- Error analysis of the two roundings behind `(int) (EncFactorFp*10000.0)`:
`r / b` is the exact fraction, `n / A` the rounded one, `M2 / B` the rounded
product with 10000. -/
theorem frac_field_bounds (b r n A B M2 : Nat) (hb : 0 < b) (hr : r < b)
    (hA : b * 2 ^ 21 < A) (hB : b ≤ B)
    (R1 : 2 * (n * b) ≤ 2 * (r * A) + b) (R1' : 2 * (r * A) ≤ 2 * (n * b) + b)
    (R2 : 2 * (M2 * A) ≤ 2 * (n * 10000 * B) + A)
    (R2' : 2 * (n * 10000 * B) ≤ 2 * (M2 * A) + A) :
    M2 < (r * 10000 / b + 1) * B ∧ r * 10000 / b * B ≤ M2 + B ∧
      (r * 10000 % b ≠ 0 → r * 10000 / b * B ≤ M2) := by
  have hdm := Nat.div_add_mod (r * 10000) b
  have hs := Nat.mod_lt (r * 10000) hb
  generalize r * 10000 / b = m at *
  generalize r * 10000 % b = s at *
  have hB0 : 0 < B := by omega
  have hA0 : 0 < A := by omega
  have h7 : b * 2 ^ 21 * B < A * B := Nat.mul_lt_mul_of_pos_right hA hB0
  have h8 : A * b ≤ A * B := Nat.mul_le_mul_left A hB
  have h9 : (r * 10000) * (A * B) = (b * m + s) * (A * B) := by rw [hdm]
  have h6 : (s + 1) * (A * B) ≤ b * (A * B) := Nat.mul_le_mul_right _ hs
  have h2 : 2 * (M2 * A) * b ≤ (2 * (n * 10000 * B) + A) * b := Nat.mul_le_mul_right b R2
  have h3 : 2 * (n * b) * (10000 * B) ≤ (2 * (r * A) + b) * (10000 * B) :=
    Nat.mul_le_mul_right _ R1
  have g2 : 2 * (n * 10000 * B) * b ≤ (2 * (M2 * A) + A) * b := Nat.mul_le_mul_right b R2'
  have g3 : 2 * (r * A) * (10000 * B) ≤ (2 * (n * b) + b) * (10000 * B) :=
    Nat.mul_le_mul_right _ R1'
  have h10 : 1 * (A * B) ≤ b * (A * B) := Nat.mul_le_mul_right _ hb
  refine ⟨?_, ?_, ?_⟩
  · by_contra hc
    have h1 : (m + 1) * B * (A * b) ≤ M2 * (A * b) := Nat.mul_le_mul_right _ (by omega)
    linarith
  · by_contra hc
    have g1 : (M2 + B + 1) * (A * b) ≤ m * B * (A * b) := Nat.mul_le_mul_right _ (by omega)
    have g5 : 0 ≤ s * (A * B) := Nat.zero_le _
    linarith
  · intro hs0
    by_contra hc
    have g1 : (M2 + 1) * (A * b) ≤ m * B * (A * b) := Nat.mul_le_mul_right _ (by omega)
    have g4 : 1 * (A * B) ≤ s * (A * B) := Nat.mul_le_mul_right _ (by omega)
    linarith

/-- The fraction field is the truncation of `10000` times the fractional part
of the exact quotient, or one less; it is the truncation whenever that product
is not an integer. -/
theorem fracField_bounds (a b : Nat) (ha : 0 < a) (hb : 0 < b)
    (ha2 : a < 2147483648) (hb2 : b < 2147483648) (h : a % b ≠ 0) :
    fracField a b ≤ a % b * 10000 / b ∧ a % b * 10000 / b ≤ fracField a b + 1 ∧
      (a % b * 10000 % b ≠ 0 → fracField a b = a % b * 10000 / b) := by
  obtain ⟨f1, f2, f3, f4⟩ := fracScale_range a b ha hb ha2 hb2 h
  obtain ⟨r1, r2⟩ := quotSig_mod a b ha hb ha2 hb2
  obtain ⟨s1, s2⟩ := fracSig_spec a b
  have hq := quotScale_small a b ha hb ha2 hb2
  have hB : b ≤ 2 ^ fracScale a b := by
    have : 2 ^ 39 ≤ 2 ^ fracScale a b := Nat.pow_le_pow_right (by norm_num) f1
    omega
  have hB0 : 0 < 2 ^ fracScale a b := by positivity
  obtain ⟨k1, k2, k3⟩ := frac_field_bounds b (a % b) (quotSig a b % 2 ^ quotScale a b)
    (2 ^ quotScale a b) (2 ^ fracScale a b) (fracSig a b) hb (Nat.mod_lt a hb) hq hB r1 r2 s1 s2
  unfold fracField
  generalize a % b * 10000 / b = m at *
  generalize hF : fracSig a b / 2 ^ fracScale a b = F at *
  have u1 : F ≤ m := by
    have h1 := (Nat.div_lt_iff_lt_mul hB0).mpr k1
    rw [hF] at h1
    omega
  have u2 : m ≤ F + 1 := by
    rcases Nat.eq_zero_or_pos m with hz | hp
    · rw [hz]; exact Nat.zero_le _
    · have e : (m - 1) * 2 ^ fracScale a b + 2 ^ fracScale a b = m * 2 ^ fracScale a b := by
        have h1 : m = (m - 1) + 1 := by omega
        nth_rewrite 2 [h1]
        rw [Nat.add_mul, Nat.one_mul]
      have h2 : (m - 1) * 2 ^ fracScale a b ≤ fracSig a b := by omega
      have h3 := (Nat.le_div_iff_mul_le hB0).mpr h2
      rw [hF] at h3
      omega
  refine ⟨u1, u2, ?_⟩
  intro hs
  have h3 := (Nat.le_div_iff_mul_le hB0).mpr (k3 hs)
  rw [hF] at h3
  omega

theorem fracField_lt (a b : Nat) (ha : 0 < a) (hb : 0 < b)
    (ha2 : a < 2147483648) (hb2 : b < 2147483648) (h : a % b ≠ 0) :
    fracField a b < 10000 := by
  obtain ⟨u1, -, -⟩ := fracField_bounds a b ha hb ha2 hb2 h
  have hr := Nat.mod_lt a hb
  have h1 : a % b * 10000 / b < 10000 := by
    apply (Nat.div_lt_iff_lt_mul hb).mpr
    generalize a % b = r at *
    omega
  generalize a % b * 10000 / b = m at *
  omega

theorem checked32_of_range (x : Int) (h1 : -2147483648 ≤ x) (h2 : x ≤ 2147483647) :
    checked32 x = some x := by
  unfold checked32 INT_MIN INT_MAX
  rw [if_pos ⟨h1, h2⟩]

theorem MotorSteps_of_range (mres fs : Nat) (h1 : mres ≤ 8)
    (h2 : 2 ^ (8 - mres) * fs < 2147483648) :
    MotorSteps mres fs = some ((2 ^ (8 - mres) * fs : Nat) : Int) := by
  unfold MotorSteps
  rw [if_pos h1, toInt32_of_range _ (by omega) (by omega)]

theorem abs32_of_range (x : Int) (h1 : -2147483648 < x) (h2 : x < 2147483648) :
    abs32 x = some ((x.natAbs : Nat) : Int) := by
  unfold abs32
  split
  · rw [checked32_of_range _ (by omega) (by omega)]; congr 1; omega
  · rw [checked32_of_range _ (by omega) (by omega)]; congr 1; omega

/-- The exact (binary) path of `CalculateEncoderParameters`. -/
theorem encoderSetting_exact (cfg : TMotorConfig) (mres N : Nat) (hr : InRange cfg mres)
    (hfs : cfg.MotorFullStepResolution ≠ 0) (henc : cfg.EncoderResolution ≠ 0)
    (hN : 2 ^ (8 - mres) * cfg.MotorFullStepResolution * 65536 =
      N * cfg.EncoderResolution.natAbs)
    (hfit : N < 2147483648) :
    encoderSetting cfg mres =
      some (false, if cfg.EncoderResolution < 0 then -(N : Int) else (N : Int)) := by
  obtain ⟨r1, r2, r3, r4⟩ := hr
  have ha : 0 < 2 ^ (8 - mres) * cfg.MotorFullStepResolution :=
    Nat.mul_pos (by positivity) (by omega)
  have hb : 0 < cfg.EncoderResolution.natAbs := by omega
  have hb2 : cfg.EncoderResolution.natAbs < 2147483648 := by omega
  unfold encoderSetting
  rw [if_neg (by simp [hfs, henc]), MotorSteps_of_range _ _ r1 r2, abs32_of_range _ r3 r4]
  simp only [Option.some_bind]
  rw [exact_test _ _ ha hb r2 hb2]
  have hd : cfg.EncoderResolution.natAbs ∣
      2 ^ (8 - mres) * cfg.MotorFullStepResolution * 65536 := ⟨N, by rw [hN]; ring⟩
  simp only [hd, decide_True, if_true]
  unfold Dbl.toInt
  rw [exact_value _ _ N ha hb r2 hb2 hN, checked32_of_range _ (by omega) (by omega)]
  simp only [Option.some_bind]
  split
  · rw [checked32_of_range _ (by omega) (by omega)]; rfl
  · rfl

theorem toInt_natCast (X S : Nat) (h : X / 2 ^ S < 2147483648) :
    Dbl.toInt ⟨(X : Int), S⟩ = some ((X / 2 ^ S : Nat) : Int) := by
  unfold Dbl.toInt
  rw [trunc_natCast]
  generalize X / 2 ^ S = q at *
  rw [checked32_of_range _ (by omega) (by omega)]

theorem mod_ne_zero_of_not_dvd (a b : Nat) (h : ¬ b ∣ a * 65536) : a % b ≠ 0 := by
  intro hz
  exact h (Dvd.dvd.mul_right (Nat.dvd_of_mod_eq_zero hz) _)

/-- The decimal path of `CalculateEncoderParameters`. -/
theorem encoderSetting_decimal (cfg : TMotorConfig) (mres : Nat) (hr : InRange cfg mres)
    (hfs : cfg.MotorFullStepResolution ≠ 0) (henc : cfg.EncoderResolution ≠ 0)
    (hne : ¬ cfg.EncoderResolution.natAbs ∣
      2 ^ (8 - mres) * cfg.MotorFullStepResolution * 65536) :
    encoderSetting cfg mres = some (true,
      if 0 < cfg.EncoderResolution then
        or32 (shl32 ((2 ^ (8 - mres) * cfg.MotorFullStepResolution /
          cfg.EncoderResolution.natAbs : Nat) : Int) 16)
          ((fracField (2 ^ (8 - mres) * cfg.MotorFullStepResolution)
            cfg.EncoderResolution.natAbs : Nat) : Int)
      else
        or32 (shl32 (-((2 ^ (8 - mres) * cfg.MotorFullStepResolution /
          cfg.EncoderResolution.natAbs : Nat) : Int) - 1) 16)
          (10000 - ((fracField (2 ^ (8 - mres) * cfg.MotorFullStepResolution)
            cfg.EncoderResolution.natAbs : Nat) : Int))) := by
  obtain ⟨r1, r2, r3, r4⟩ := hr
  have ha : 0 < 2 ^ (8 - mres) * cfg.MotorFullStepResolution :=
    Nat.mul_pos (by positivity) (by omega)
  have hb : 0 < cfg.EncoderResolution.natAbs := by omega
  have hb2 : cfg.EncoderResolution.natAbs < 2147483648 := by omega
  have hmod := mod_ne_zero_of_not_dvd _ _ hne
  have hf := fracField_lt _ _ ha hb r2 hb2 hmod
  have hI : 2 ^ (8 - mres) * cfg.MotorFullStepResolution / cfg.EncoderResolution.natAbs
      < 2147483648 := lt_of_le_of_lt (Nat.div_le_self _ _) r2
  unfold encoderSetting
  rw [if_neg (by simp [hfs, henc]), MotorSteps_of_range _ _ r1 r2, abs32_of_range _ r3 r4]
  simp only [Option.some_bind]
  rw [exact_test _ _ ha hb r2 hb2]
  simp only [hne, decide_False, Bool.false_eq_true, if_false]
  rw [frac_mul_eq _ _ ha hb r2 hb2 hmod, encFactor_eq _ _ ha hb r2 hb2, modf_natCast_snd,
    quotSig_div _ _ ha hb r2 hb2]
  have e1 : Dbl.toInt (Dbl.ofInt ((2 ^ (8 - mres) * cfg.MotorFullStepResolution /
      cfg.EncoderResolution.natAbs : Nat) : Int)) =
      some ((2 ^ (8 - mres) * cfg.MotorFullStepResolution /
        cfg.EncoderResolution.natAbs : Nat) : Int) := by
    unfold Dbl.ofInt
    rw [toInt_natCast _ _ (by simpa using hI)]
    simp
  have e2 : Dbl.toInt ⟨(fracSig (2 ^ (8 - mres) * cfg.MotorFullStepResolution)
      cfg.EncoderResolution.natAbs : Int),
      fracScale (2 ^ (8 - mres) * cfg.MotorFullStepResolution) cfg.EncoderResolution.natAbs⟩ =
      some ((fracField (2 ^ (8 - mres) * cfg.MotorFullStepResolution)
        cfg.EncoderResolution.natAbs : Nat) : Int) := by
    rw [toInt_natCast _ _ (by unfold fracField at hf; omega)]
    rfl
  rw [e1, e2]
  simp only [Option.some_bind]
  generalize fracField (2 ^ (8 - mres) * cfg.MotorFullStepResolution)
    cfg.EncoderResolution.natAbs = f at *
  generalize 2 ^ (8 - mres) * cfg.MotorFullStepResolution / cfg.EncoderResolution.natAbs = I at *
  split
  · rfl
  · rw [checked32_of_range (-(I : Int)) (by omega) (by omega)]
    simp only [Option.some_bind]
    rw [checked32_of_range (-(I : Int) - 1) (by omega) (by omega)]
    simp only [Option.some_bind]
    rw [checked32_of_range (10000 - (f : Int)) (by omega) (by omega)]
    rfl

/-! ## The two halves of the prescaler -/

theorem or32_shl32 (x : Int) (f : Nat) (hf : f < 65536) :
    or32 (shl32 x 16) (f : Int) = toInt32 (x * 65536 + f) := by
  have h1 : toWord (shl32 x 16) = 2 ^ 16 * (x % 65536).toNat := by
    unfold shl32
    rw [toWord_toInt32]
    unfold toWord
    norm_num
    omega
  have h2 : toWord (f : Int) = f := toWord_natCast f (by omega)
  unfold or32
  rw [h1, h2, ← Nat.mul_add_lt_is_or (by norm_num; exact hf)]
  unfold toInt32
  push_cast
  norm_num
  omega

theorem low16_toInt32 (x : Int) (f : Nat) (hf : f < 65536) :
    low16 (toInt32 (x * 65536 + f)) = f := by
  unfold low16
  rw [toWord_toInt32]
  unfold toWord
  omega

theorem high16_toInt32 (x : Int) (f : Nat) (hf : f < 65536)
    (h1 : -32768 ≤ x) (h2 : x < 32768) :
    high16 (toInt32 (x * 65536 + f)) = x := by
  unfold high16
  rw [toInt32_of_range _ (by unfold toInt32; omega) (by unfold toInt32; omega)]
  unfold toInt32
  omega

/-! ## The exact ratio -/

theorem ratio_eq (cfg : TMotorConfig) (mres : Nat) :
    ratio cfg mres = ((2 ^ (8 - mres) * cfg.MotorFullStepResolution : Nat) : ℚ) /
      ((cfg.EncoderResolution.natAbs : Nat) : ℚ) := by
  unfold ratio
  rw [Nat.cast_natAbs, Int.cast_abs]

theorem exists_int_iff_dvd (a b c : Nat) (hb : 0 < b) :
    (∃ N : ℤ, (a : ℚ) / (b : ℚ) * (c : ℚ) = (N : ℚ)) ↔ b ∣ a * c := by
  have hb0 : (b : ℚ) ≠ 0 := by exact_mod_cast hb.ne'
  constructor
  · rintro ⟨N, hN⟩
    have h1 : ((a * c : Nat) : ℚ) = ((N * (b : ℤ) : ℤ) : ℚ) := by
      push_cast
      field_simp at hN
      linarith
    have h2 : ((a * c : Nat) : ℤ) = N * (b : ℤ) := by exact_mod_cast h1
    have h3 : (b : ℤ) ∣ ((a * c : Nat) : ℤ) := ⟨N, by rw [h2]; ring⟩
    exact Int.natCast_dvd_natCast.mp h3
  · rintro ⟨k, hk⟩
    refine ⟨(k : ℤ), ?_⟩
    have h1 : ((a * c : Nat) : ℚ) = ((b * k : Nat) : ℚ) := by rw [hk]
    push_cast at h1
    field_simp
    linarith

theorem floor_ratio (a b : Nat) : ⌊(a : ℚ) / (b : ℚ)⌋ = ((a / b : Nat) : ℤ) := by
  rw [Rat.floor_natCast_div_natCast]
  norm_cast

theorem fract_ratio_mul (a b : Nat) :
    Int.fract ((a : ℚ) / (b : ℚ)) * 10000 = ((a % b : Nat) : ℚ) / (b : ℚ) * ((10000 : Nat) : ℚ) := by
  rw [Int.fract_div_natCast_eq_div_natCast_mod]
  norm_num

theorem floor_fract_ratio_mul (a b : Nat) :
    ⌊Int.fract ((a : ℚ) / (b : ℚ)) * 10000⌋ = ((a % b * 10000 / b : Nat) : ℤ) := by
  rw [fract_ratio_mul]
  have : ((a % b : Nat) : ℚ) / (b : ℚ) * ((10000 : Nat) : ℚ) =
      ((a % b * 10000 : Nat) : ℚ) / (b : ℚ) := by
    push_cast; ring
  rw [this, floor_ratio]

theorem CalculateEncoderParameters_of_setting (env : Env) (Axis : Nat) (st : RegFile)
    (r : Bool × Int)
    (h : encoderSetting (env.MotorConfig Axis)
      (env.GetTMC5160ChopperMStepRes (env.WHICH_5160 Axis)) = some r) :
    CalculateEncoderParameters env Axis st =
      some (writeSetting env.TMC5160_EM_DECIMAL (env.WHICH_5160 Axis) st r) := by
  rw [CalculateEncoderParameters_eq, h]
  rfl

theorem writeSetting_clear (env : Env) (dev : Nat) (st : RegFile) (v : Int) :
    decimalClear env
      (writeSetting env.TMC5160_EM_DECIMAL dev st (false, v) dev Reg.TMC5160_ENCMODE) := by
  rw [writeSetting_ENCMODE, if_neg (by simp)]
  exact decimalClear_and32_not32 env _

theorem writeSetting_set (env : Env) (dev : Nat) (st : RegFile) (v : Int) :
    decimalSet env
      (writeSetting env.TMC5160_EM_DECIMAL dev st (true, v) dev Reg.TMC5160_ENCMODE) := by
  rw [writeSetting_ENCMODE, if_pos rfl]
  exact decimalSet_or32 env _

/-! ## Properties of `CalculateEncoderParameters` -/

/-- C1: degenerate case. For every axis, prior register state and microstep
exponent (in range or not), if the full step resolution or the encoder
resolution is zero, `CalculateEncoderParameters` completes, and afterwards the
decimal-mode flag of ENCMODE is clear and ENC_CONST is 65536. -/
theorem degenerate_selects_one_to_one (env : Env) (Axis : Nat) (st : RegFile)
    (h : (env.MotorConfig Axis).MotorFullStepResolution = 0 ∨
      (env.MotorConfig Axis).EncoderResolution = 0) :
    ∃ st', CalculateEncoderParameters env Axis st = some st' ∧
      decimalClear env (st' (env.WHICH_5160 Axis) Reg.TMC5160_ENCMODE) ∧
      st' (env.WHICH_5160 Axis) Reg.TMC5160_ENC_CONST = 65536 :=
  ⟨_, CalculateEncoderParameters_of_setting env Axis st _ (encoderSetting_degenerate _ _ h),
    writeSetting_clear env _ st _, writeSetting_ENC_CONST _ _ st _⟩

/-- Witness of C1: encoder resolution 0 with the out-of-range microstep
exponent 15, from a state with all register bits set. -/
theorem degenerate_selects_one_to_one_witness :
    ((boardEnv 0 200 15).MotorConfig 0).EncoderResolution = 0 ∧
    ∃ st', CalculateEncoderParameters (boardEnv 0 200 15) 0 (fun _ _ => -1) = some st' ∧
      decimalClear (boardEnv 0 200 15) (st' ((boardEnv 0 200 15).WHICH_5160 0) Reg.TMC5160_ENCMODE) ∧
      st' ((boardEnv 0 200 15).WHICH_5160 0) Reg.TMC5160_ENC_CONST = 65536 :=
  ⟨rfl, degenerate_selects_one_to_one (boardEnv 0 200 15) 0 (fun _ _ => -1) (Or.inr rfl)⟩

theorem exact_nat_of_ratio (cfg : TMotorConfig) (mres : Nat) (N : Int)
    (henc : cfg.EncoderResolution ≠ 0) (hfs : cfg.MotorFullStepResolution ≠ 0)
    (hN : ratio cfg mres * 65536 = (N : ℚ)) :
    0 ≤ N ∧ 2 ^ (8 - mres) * cfg.MotorFullStepResolution * 65536 =
      N.toNat * cfg.EncoderResolution.natAbs := by
  have hb : 0 < cfg.EncoderResolution.natAbs := by omega
  have hpos : 0 < 2 ^ (8 - mres) * cfg.MotorFullStepResolution * 65536 :=
    Nat.mul_pos (Nat.mul_pos (by positivity) (by omega)) (by norm_num)
  rw [ratio_eq] at hN
  generalize cfg.EncoderResolution.natAbs = b at *
  generalize 2 ^ (8 - mres) * cfg.MotorFullStepResolution = a at *
  have hb0 : (b : ℚ) ≠ 0 := by exact_mod_cast hb.ne'
  have h1 : ((a * 65536 : Nat) : ℚ) = ((N * (b : ℤ) : ℤ) : ℚ) := by
    push_cast
    field_simp at hN
    linarith
  have h2 : ((a * 65536 : Nat) : ℤ) = N * (b : ℤ) := by exact_mod_cast h1
  have hN0 : 0 ≤ N := by
    by_contra hc
    have : N * (b : ℤ) ≤ 0 := Int.mul_nonpos_of_nonpos_of_nonneg (by omega) (by omega)
    omega
  refine ⟨hN0, ?_⟩
  have h3 : ((a * 65536 : Nat) : ℤ) = ((N.toNat * b : Nat) : ℤ) := by
    rw [h2]; push_cast; rw [Int.toNat_of_nonneg hN0]
  exact_mod_cast h3

/-- C2 (amended): exact (binary) case. For every configuration within range
(microstep exponent in `0..8`, `motorSteps` below `2 ^ 31`, encoder resolution
an `int` other than `INT_MIN`) with both resolutions non-zero, if `(motorSteps / |EncoderResolution|) * 65536`, as an
exact rational, is an integer `N` that fits a signed 32-bit word, the call
completes, the decimal-mode flag is clear afterwards and ENC_CONST is `N` for a
positive and `-N` for a negative encoder resolution. With 200 full steps and
exponent 0 the resolutions 51200 and -51200 give 65536 and -65536. -/
theorem exact_ratio_binary_encoding :
    (∀ (env : Env) (Axis : Nat) (st : RegFile) (N : Int),
      InRange (env.MotorConfig Axis) (env.GetTMC5160ChopperMStepRes (env.WHICH_5160 Axis)) →
      (env.MotorConfig Axis).MotorFullStepResolution ≠ 0 →
      (env.MotorConfig Axis).EncoderResolution ≠ 0 →
      ratio (env.MotorConfig Axis) (env.GetTMC5160ChopperMStepRes (env.WHICH_5160 Axis)) * 65536
        = (N : ℚ) →
      INT_MIN ≤ N → N ≤ INT_MAX →
      ∃ st', CalculateEncoderParameters env Axis st = some st' ∧
        decimalClear env (st' (env.WHICH_5160 Axis) Reg.TMC5160_ENCMODE) ∧
        st' (env.WHICH_5160 Axis) Reg.TMC5160_ENC_CONST =
          if 0 < (env.MotorConfig Axis).EncoderResolution then N else -N) ∧
    (∀ st : RegFile, ∃ st', CalculateEncoderParameters (boardEnv 51200 200 0) 0 st = some st' ∧
        decimalClear (boardEnv 51200 200 0) (st' 0 Reg.TMC5160_ENCMODE) ∧
        st' 0 Reg.TMC5160_ENC_CONST = 65536) ∧
    (∀ st : RegFile, ∃ st', CalculateEncoderParameters (boardEnv (-51200) 200 0) 0 st = some st' ∧
        decimalClear (boardEnv (-51200) 200 0) (st' 0 Reg.TMC5160_ENCMODE) ∧
        st' 0 Reg.TMC5160_ENC_CONST = -65536) := by
  refine ⟨?_, ?_, ?_⟩
  · intro env Axis st N hr hfs henc hN h1 h2
    obtain ⟨hN0, hnat⟩ := exact_nat_of_ratio _ _ N henc hfs hN
    have hset := encoderSetting_exact _ _ N.toNat hr hfs henc hnat
      (by unfold INT_MAX at h2; omega)
    rw [Int.toNat_of_nonneg hN0] at hset
    refine ⟨_, CalculateEncoderParameters_of_setting env Axis st _ hset,
      writeSetting_clear env _ st _, ?_⟩
    rw [writeSetting_ENC_CONST]
    simp only
    by_cases hp : 0 < (env.MotorConfig Axis).EncoderResolution
    · rw [if_neg (by omega), if_pos hp]
    · rw [if_pos (by omega), if_neg hp]
  · intro st
    exact ⟨_, CalculateEncoderParameters_of_setting (boardEnv 51200 200 0) 0 st (false, 65536)
      (by decide), writeSetting_clear _ _ st _, writeSetting_ENC_CONST _ _ st _⟩
  · intro st
    exact ⟨_, CalculateEncoderParameters_of_setting (boardEnv (-51200) 200 0) 0 st (false, -65536)
      (by decide), writeSetting_clear _ _ st _, writeSetting_ENC_CONST _ _ st _⟩

/-- Witness of C2 (amended): 200 full steps, exponent 0, encoder resolution -51200. -/
theorem exact_ratio_binary_encoding_witness :
    InRange ((boardEnv (-51200) 200 0).MotorConfig 0) 0 ∧
    ratio ((boardEnv (-51200) 200 0).MotorConfig 0) 0 * 65536 = ((65536 : ℤ) : ℚ) ∧
    ∃ st', CalculateEncoderParameters (boardEnv (-51200) 200 0) 0 (fun _ _ => 0) = some st' ∧
      decimalClear (boardEnv (-51200) 200 0) (st' 0 Reg.TMC5160_ENCMODE) ∧
      st' 0 Reg.TMC5160_ENC_CONST = if (0 : ℤ) < -51200 then 65536 else -65536 :=
  ⟨by decide, by norm_num [ratio, boardEnv],
    exact_ratio_binary_encoding.1 (boardEnv (-51200) 200 0) 0 (fun _ _ => 0) 65536 (by decide)
      (by decide) (by decide) (by norm_num [ratio, boardEnv]) (by decide) (by decide)⟩

theorem ratio_exact_iff (cfg : TMotorConfig) (mres : Nat) (henc : cfg.EncoderResolution ≠ 0) :
    (∃ N : ℤ, ratio cfg mres * 65536 = (N : ℚ)) ↔
      cfg.EncoderResolution.natAbs ∣ 2 ^ (8 - mres) * cfg.MotorFullStepResolution * 65536 := by
  rw [ratio_eq, ← exists_int_iff_dvd _ _ _ (by omega)]
  simp only [Nat.cast_ofNat]

theorem fract_ratio_exact_iff (cfg : TMotorConfig) (mres : Nat)
    (henc : cfg.EncoderResolution ≠ 0) :
    (∃ k : ℤ, Int.fract (ratio cfg mres) * 10000 = (k : ℚ)) ↔
      2 ^ (8 - mres) * cfg.MotorFullStepResolution % cfg.EncoderResolution.natAbs * 10000 %
        cfg.EncoderResolution.natAbs = 0 := by
  rw [ratio_eq, fract_ratio_mul, exists_int_iff_dvd _ _ _ (by omega), Nat.dvd_iff_mod_eq_zero]

/-- The decimal path in terms of the exact ratio, when `10000` times its
fractional part is not an integer. -/
theorem encoderSetting_decimal_ratio (cfg : TMotorConfig) (mres : Nat) (hr : InRange cfg mres)
    (hfs : cfg.MotorFullStepResolution ≠ 0) (henc : cfg.EncoderResolution ≠ 0)
    (hne : ¬ ∃ N : ℤ, ratio cfg mres * 65536 = (N : ℚ))
    (hfr : ¬ ∃ k : ℤ, Int.fract (ratio cfg mres) * 10000 = (k : ℚ)) :
    encoderSetting cfg mres = some (true,
      if 0 < cfg.EncoderResolution then
        or32 (shl32 ⌊ratio cfg mres⌋ 16) ⌊Int.fract (ratio cfg mres) * 10000⌋
      else
        or32 (shl32 (-⌊ratio cfg mres⌋ - 1) 16)
          (10000 - ⌊Int.fract (ratio cfg mres) * 10000⌋)) := by
  rw [ratio_exact_iff cfg mres henc] at hne
  rw [fract_ratio_exact_iff cfg mres henc] at hfr
  obtain ⟨r1, r2, r3, r4⟩ := hr
  have ha : 0 < 2 ^ (8 - mres) * cfg.MotorFullStepResolution :=
    Nat.mul_pos (by positivity) (by omega)
  have hb : 0 < cfg.EncoderResolution.natAbs := by omega
  have hb2 : cfg.EncoderResolution.natAbs < 2147483648 := by omega
  have hf := (fracField_bounds _ _ ha hb r2 hb2 (mod_ne_zero_of_not_dvd _ _ hne)).2.2 hfr
  rw [encoderSetting_decimal cfg mres ⟨r1, r2, r3, r4⟩ hfs henc hne, hf, ratio_eq, floor_ratio,
    floor_fract_ratio_mul]

/-- C3 (amended): non-exact case, positive encoder direction. For every
configuration within range with a positive encoder resolution whose ratio times
65536 is not an integer, and with `I` the integral and `F` the fractional part
of the ratio, if `F * 10000` is not an integer then the call completes, the
decimal-mode flag is set afterwards and ENC_CONST is `(I << 16) | ⌊F * 10000⌋`:
the fraction is truncated, not rounded to nearest. -/
theorem decimal_positive_truncates (env : Env) (Axis : Nat) (st : RegFile)
    (hr : InRange (env.MotorConfig Axis) (env.GetTMC5160ChopperMStepRes (env.WHICH_5160 Axis)))
    (hfs : (env.MotorConfig Axis).MotorFullStepResolution ≠ 0)
    (hpos : 0 < (env.MotorConfig Axis).EncoderResolution)
    (hne : ¬ ∃ N : ℤ, ratio (env.MotorConfig Axis)
      (env.GetTMC5160ChopperMStepRes (env.WHICH_5160 Axis)) * 65536 = (N : ℚ))
    (hfr : ¬ ∃ k : ℤ, Int.fract (ratio (env.MotorConfig Axis)
      (env.GetTMC5160ChopperMStepRes (env.WHICH_5160 Axis))) * 10000 = (k : ℚ)) :
    ∃ st', CalculateEncoderParameters env Axis st = some st' ∧
      decimalSet env (st' (env.WHICH_5160 Axis) Reg.TMC5160_ENCMODE) ∧
      st' (env.WHICH_5160 Axis) Reg.TMC5160_ENC_CONST =
        or32 (shl32 ⌊ratio (env.MotorConfig Axis)
          (env.GetTMC5160ChopperMStepRes (env.WHICH_5160 Axis))⌋ 16)
          ⌊Int.fract (ratio (env.MotorConfig Axis)
            (env.GetTMC5160ChopperMStepRes (env.WHICH_5160 Axis))) * 10000⌋ := by
  have hset := encoderSetting_decimal_ratio _ _ hr hfs (by omega) hne hfr
  rw [if_pos hpos] at hset
  exact ⟨_, CalculateEncoderParameters_of_setting env Axis st _ hset,
    writeSetting_set env _ st _, writeSetting_ENC_CONST _ _ st _⟩

/-- C4 (amended): non-exact case, inverted encoder direction. For every
configuration within range with a negative encoder resolution whose ratio times
65536 is not an integer, and with `I` the integral and `F` the fractional part
of the ratio, if `F * 10000` is not an integer then the call completes, the
decimal-mode flag is set afterwards and ENC_CONST is
`((-I - 1) << 16) | (10000 - ⌊F * 10000⌋)`: the fraction is truncated. -/
theorem decimal_negative_truncates (env : Env) (Axis : Nat) (st : RegFile)
    (hr : InRange (env.MotorConfig Axis) (env.GetTMC5160ChopperMStepRes (env.WHICH_5160 Axis)))
    (hfs : (env.MotorConfig Axis).MotorFullStepResolution ≠ 0)
    (hneg : (env.MotorConfig Axis).EncoderResolution < 0)
    (hne : ¬ ∃ N : ℤ, ratio (env.MotorConfig Axis)
      (env.GetTMC5160ChopperMStepRes (env.WHICH_5160 Axis)) * 65536 = (N : ℚ))
    (hfr : ¬ ∃ k : ℤ, Int.fract (ratio (env.MotorConfig Axis)
      (env.GetTMC5160ChopperMStepRes (env.WHICH_5160 Axis))) * 10000 = (k : ℚ)) :
    ∃ st', CalculateEncoderParameters env Axis st = some st' ∧
      decimalSet env (st' (env.WHICH_5160 Axis) Reg.TMC5160_ENCMODE) ∧
      st' (env.WHICH_5160 Axis) Reg.TMC5160_ENC_CONST =
        or32 (shl32 (-⌊ratio (env.MotorConfig Axis)
          (env.GetTMC5160ChopperMStepRes (env.WHICH_5160 Axis))⌋ - 1) 16)
          (10000 - ⌊Int.fract (ratio (env.MotorConfig Axis)
            (env.GetTMC5160ChopperMStepRes (env.WHICH_5160 Axis))) * 10000⌋) := by
  have hset := encoderSetting_decimal_ratio _ _ hr hfs (by omega) hne hfr
  rw [if_neg (by omega)] at hset
  exact ⟨_, CalculateEncoderParameters_of_setting env Axis st _ hset,
    writeSetting_set env _ st _, writeSetting_ENC_CONST _ _ st _⟩

/-- Witness of C3 (amended): 2 full steps, exponent 0, encoder resolution 768
(ratio 2/3). -/
theorem decimal_positive_truncates_witness :
    InRange ((boardEnv 768 2 0).MotorConfig 0) 0 ∧
    ∃ st', CalculateEncoderParameters (boardEnv 768 2 0) 0 (fun _ _ => 0) = some st' ∧
      decimalSet (boardEnv 768 2 0) (st' 0 Reg.TMC5160_ENCMODE) ∧
      st' 0 Reg.TMC5160_ENC_CONST =
        or32 (shl32 ⌊ratio ((boardEnv 768 2 0).MotorConfig 0) 0⌋ 16)
          ⌊Int.fract (ratio ((boardEnv 768 2 0).MotorConfig 0) 0) * 10000⌋ :=
  ⟨by decide, decimal_positive_truncates (boardEnv 768 2 0) 0 (fun _ _ => 0) (by decide)
    (by decide) (by decide)
    ((ratio_exact_iff _ _ (by decide)).not.mpr (by decide))
    ((fract_ratio_exact_iff _ _ (by decide)).not.mpr (by decide))⟩

/-- Witness of C4 (amended): 2 full steps, exponent 0, encoder resolution -768
(ratio 2/3). -/
theorem decimal_negative_truncates_witness :
    InRange ((boardEnv (-768) 2 0).MotorConfig 0) 0 ∧
    ∃ st', CalculateEncoderParameters (boardEnv (-768) 2 0) 0 (fun _ _ => 0) = some st' ∧
      decimalSet (boardEnv (-768) 2 0) (st' 0 Reg.TMC5160_ENCMODE) ∧
      st' 0 Reg.TMC5160_ENC_CONST =
        or32 (shl32 (-⌊ratio ((boardEnv (-768) 2 0).MotorConfig 0) 0⌋ - 1) 16)
          (10000 - ⌊Int.fract (ratio ((boardEnv (-768) 2 0).MotorConfig 0) 0) * 10000⌋) :=
  ⟨by decide, decimal_negative_truncates (boardEnv (-768) 2 0) 0 (fun _ _ => 0) (by decide)
    (by decide) (by decide)
    ((ratio_exact_iff _ _ (by decide)).not.mpr (by decide))
    ((fract_ratio_exact_iff _ _ (by decide)).not.mpr (by decide))⟩

theorem ratio_two_thirds_pos : ratio ((boardEnv 768 2 0).MotorConfig 0) 0 = 2 / 3 := by
  norm_num [ratio, boardEnv]

theorem ratio_two_thirds_neg : ratio ((boardEnv (-768) 2 0).MotorConfig 0) 0 = 2 / 3 := by
  norm_num [ratio, boardEnv]

theorem floor_two_thirds : ⌊(2 / 3 : ℚ)⌋ = 0 := by
  rw [Int.floor_eq_iff]; norm_num

theorem round_two_thirds : round (Int.fract (2 / 3 : ℚ) * 10000) = 6667 := by
  have h : Int.fract (2 / 3 : ℚ) = 2 / 3 := by
    rw [Int.fract, floor_two_thirds]; norm_num
  rw [h, round_eq, Int.floor_eq_iff]
  norm_num

/-- C3 (counterexample): with 2 full steps, exponent 0 and encoder resolution
768 the ratio is 2/3, neither it times 65536 nor its fraction times 10000 is an
integer, and the code writes ENC_CONST = 6666, while `(I << 16) | round(F * 10000)`
with rounding to nearest is 6667. -/
theorem decimal_positive_rounding_counterexample :
    InRange ((boardEnv 768 2 0).MotorConfig 0) 0 ∧
    0 < ((boardEnv 768 2 0).MotorConfig 0).EncoderResolution ∧
    (¬ ∃ N : ℤ, ratio ((boardEnv 768 2 0).MotorConfig 0) 0 * 65536 = (N : ℚ)) ∧
    ∃ st', CalculateEncoderParameters (boardEnv 768 2 0) 0 (fun _ _ => 0) = some st' ∧
      st' 0 Reg.TMC5160_ENC_CONST = 6666 ∧
      st' 0 Reg.TMC5160_ENC_CONST ≠
        or32 (shl32 ⌊ratio ((boardEnv 768 2 0).MotorConfig 0) 0⌋ 16)
          (round (Int.fract (ratio ((boardEnv 768 2 0).MotorConfig 0) 0) * 10000)) := by
  refine ⟨by decide, by decide, (ratio_exact_iff _ _ (by decide)).not.mpr (by decide), _,
    CalculateEncoderParameters_of_setting (boardEnv 768 2 0) 0 (fun _ _ => 0) (true, 6666)
      (by decide), writeSetting_ENC_CONST _ _ _ _, ?_⟩
  rw [show writeSetting (boardEnv 768 2 0).TMC5160_EM_DECIMAL ((boardEnv 768 2 0).WHICH_5160 0)
      (fun _ _ => 0) (true, 6666) 0 Reg.TMC5160_ENC_CONST = 6666
    from writeSetting_ENC_CONST _ _ _ _, ratio_two_thirds_pos, floor_two_thirds, round_two_thirds]
  decide

/-- C4 (counterexample): with 2 full steps, exponent 0 and encoder resolution
-768 the ratio is 2/3 and the code writes ENC_CONST = (-1 << 16) | 3334 = -62202,
while `((-I - 1) << 16) | (10000 - round(F * 10000))` with rounding to nearest
is (-1 << 16) | 3333. -/
theorem decimal_negative_rounding_counterexample :
    InRange ((boardEnv (-768) 2 0).MotorConfig 0) 0 ∧
    ((boardEnv (-768) 2 0).MotorConfig 0).EncoderResolution < 0 ∧
    (¬ ∃ N : ℤ, ratio ((boardEnv (-768) 2 0).MotorConfig 0) 0 * 65536 = (N : ℚ)) ∧
    ∃ st', CalculateEncoderParameters (boardEnv (-768) 2 0) 0 (fun _ _ => 0) = some st' ∧
      st' 0 Reg.TMC5160_ENC_CONST = -62202 ∧
      st' 0 Reg.TMC5160_ENC_CONST ≠
        or32 (shl32 (-⌊ratio ((boardEnv (-768) 2 0).MotorConfig 0) 0⌋ - 1) 16)
          (10000 - round (Int.fract (ratio ((boardEnv (-768) 2 0).MotorConfig 0) 0) * 10000)) := by
  refine ⟨by decide, by decide, (ratio_exact_iff _ _ (by decide)).not.mpr (by decide), _,
    CalculateEncoderParameters_of_setting (boardEnv (-768) 2 0) 0 (fun _ _ => 0) (true, -62202)
      (by decide), writeSetting_ENC_CONST _ _ _ _, ?_⟩
  rw [show writeSetting (boardEnv (-768) 2 0).TMC5160_EM_DECIMAL
      ((boardEnv (-768) 2 0).WHICH_5160 0) (fun _ _ => 0) (true, -62202) 0
      Reg.TMC5160_ENC_CONST = -62202
    from writeSetting_ENC_CONST _ _ _ _, ratio_two_thirds_neg, floor_two_thirds, round_two_thirds]
  decide

/-- C5: scenario C. With 200 full steps, microstep exponent 0 and encoder
resolution 1000, `MotorSteps` is 51200, the test of line 70 fails (non-exact
branch), the call completes, the decimal-mode flag is set afterwards and
ENC_CONST is `(51 << 16) | 2000 = 3344336`. -/
theorem scenario_C (env : Env) (Axis : Nat) (st : RegFile)
    (hcfg : env.MotorConfig Axis = ⟨1000, 200⟩)
    (hm : env.GetTMC5160ChopperMStepRes (env.WHICH_5160 Axis) = 0) :
    MotorSteps 0 200 = some 51200 ∧
    (modf (Dbl.mul (Dbl.div (Dbl.ofInt 51200) (Dbl.ofInt 1000)) (Dbl.ofInt 65536))).1.isZero
      = false ∧
    or32 (shl32 51 16) 2000 = 3344336 ∧
    ∃ st', CalculateEncoderParameters env Axis st = some st' ∧
      decimalSet env (st' (env.WHICH_5160 Axis) Reg.TMC5160_ENCMODE) ∧
      st' (env.WHICH_5160 Axis) Reg.TMC5160_ENC_CONST = 3344336 := by
  refine ⟨by decide, by decide, by decide, _,
    CalculateEncoderParameters_of_setting env Axis st (true, 3344336) ?_,
    writeSetting_set env _ st _, writeSetting_ENC_CONST _ _ st _⟩
  rw [hcfg, hm]
  decide

/-- Witness of C5 on the one-axis board. -/
theorem scenario_C_witness :
    MotorSteps 0 200 = some 51200 ∧
    (modf (Dbl.mul (Dbl.div (Dbl.ofInt 51200) (Dbl.ofInt 1000)) (Dbl.ofInt 65536))).1.isZero
      = false ∧
    or32 (shl32 51 16) 2000 = 3344336 ∧
    ∃ st', CalculateEncoderParameters (boardEnv 1000 200 0) 0 (fun _ _ => 0) = some st' ∧
      decimalSet (boardEnv 1000 200 0) (st' 0 Reg.TMC5160_ENCMODE) ∧
      st' 0 Reg.TMC5160_ENC_CONST = 3344336 :=
  scenario_C (boardEnv 1000 200 0) 0 (fun _ _ => 0) rfl rfl

/-- C6: scenario D. With 200 full steps, microstep exponent 0 and encoder
resolution -1000 the call completes, the decimal-mode flag is set afterwards
and ENC_CONST is `((-51 - 1) << 16) | (10000 - 2000) = (-52 << 16) | 8000`,
which is -3399872 as a signed 32-bit value. -/
theorem scenario_D (env : Env) (Axis : Nat) (st : RegFile)
    (hcfg : env.MotorConfig Axis = ⟨-1000, 200⟩)
    (hm : env.GetTMC5160ChopperMStepRes (env.WHICH_5160 Axis) = 0) :
    or32 (shl32 (-51 - 1) 16) (10000 - 2000) = -3399872 ∧
    or32 (shl32 (-52) 16) 8000 = -3399872 ∧
    ∃ st', CalculateEncoderParameters env Axis st = some st' ∧
      decimalSet env (st' (env.WHICH_5160 Axis) Reg.TMC5160_ENCMODE) ∧
      st' (env.WHICH_5160 Axis) Reg.TMC5160_ENC_CONST = -3399872 := by
  refine ⟨by decide, by decide, _,
    CalculateEncoderParameters_of_setting env Axis st (true, -3399872) ?_,
    writeSetting_set env _ st _, writeSetting_ENC_CONST _ _ st _⟩
  rw [hcfg, hm]
  decide

/-- Witness of C6 on the one-axis board. -/
theorem scenario_D_witness :
    or32 (shl32 (-51 - 1) 16) (10000 - 2000) = -3399872 ∧
    or32 (shl32 (-52) 16) 8000 = -3399872 ∧
    ∃ st', CalculateEncoderParameters (boardEnv (-1000) 200 0) 0 (fun _ _ => 0) = some st' ∧
      decimalSet (boardEnv (-1000) 200 0) (st' 0 Reg.TMC5160_ENCMODE) ∧
      st' 0 Reg.TMC5160_ENC_CONST = -3399872 :=
  scenario_D (boardEnv (-1000) 200 0) 0 (fun _ _ => 0) rfl rfl

/-- C10: register frame of `CalculateEncoderParameters`. On every path, from
every prior register state, a completed call leaves every bit of ENCMODE
outside the decimal-mode mask as it was, leaves the position register XENC as
it was, and changes no register of any other device: only the decimal-mode
flag and ENC_CONST of the device of the axis may differ. -/
theorem calculate_frame (env : Env) (Axis : Nat) (st st' : RegFile)
    (h : CalculateEncoderParameters env Axis st = some st') :
    (∀ i, bit32 env.TMC5160_EM_DECIMAL i = false →
      bit32 (st' (env.WHICH_5160 Axis) Reg.TMC5160_ENCMODE) i =
        bit32 (st (env.WHICH_5160 Axis) Reg.TMC5160_ENCMODE) i) ∧
    st' (env.WHICH_5160 Axis) Reg.TMC5160_XENC = st (env.WHICH_5160 Axis) Reg.TMC5160_XENC ∧
    ∀ d q, d ≠ env.WHICH_5160 Axis → st' d q = st d q := by
  rw [CalculateEncoderParameters_eq] at h
  cases hs : encoderSetting (env.MotorConfig Axis)
      (env.GetTMC5160ChopperMStepRes (env.WHICH_5160 Axis)) with
  | none => rw [hs] at h; exact absurd h (by simp)
  | some r =>
    rw [hs] at h
    simp only [Option.map_some', Option.some.injEq] at h
    subst h
    exact ⟨fun i hi => writeSetting_bit _ _ st r i hi, writeSetting_XENC _ _ _ st r,
      fun d q hd => writeSetting_other _ _ d q st r hd⟩

/-- Witness of C10: scenario C from a state whose registers all hold
0x12345678. -/
theorem calculate_frame_witness :
    CalculateEncoderParameters (boardEnv 1000 200 0) 0 (fun _ _ => 305419896) =
      some (writeSetting 1024 0 (fun _ _ => 305419896) (true, 3344336)) ∧
    ((∀ i, bit32 (boardEnv 1000 200 0).TMC5160_EM_DECIMAL i = false →
      bit32 (writeSetting 1024 0 (fun _ _ => 305419896) (true, 3344336)
        ((boardEnv 1000 200 0).WHICH_5160 0) Reg.TMC5160_ENCMODE) i =
        bit32 ((fun _ _ => 305419896 : RegFile) ((boardEnv 1000 200 0).WHICH_5160 0)
          Reg.TMC5160_ENCMODE) i) ∧
    writeSetting 1024 0 (fun _ _ => 305419896) (true, 3344336)
        ((boardEnv 1000 200 0).WHICH_5160 0) Reg.TMC5160_XENC =
      (fun _ _ => 305419896 : RegFile) ((boardEnv 1000 200 0).WHICH_5160 0) Reg.TMC5160_XENC ∧
    ∀ d q, d ≠ (boardEnv 1000 200 0).WHICH_5160 0 →
      writeSetting 1024 0 (fun _ _ => 305419896) (true, 3344336) d q =
        (fun _ _ => 305419896 : RegFile) d q) :=
  ⟨CalculateEncoderParameters_of_setting (boardEnv 1000 200 0) 0 _ (true, 3344336) (by decide),
    calculate_frame (boardEnv 1000 200 0) 0 (fun _ _ => 305419896) _
      (CalculateEncoderParameters_of_setting (boardEnv 1000 200 0) 0 _ (true, 3344336)
        (by decide))⟩

theorem low16_decimal_pos (I : Int) (f : Nat) (hf : f < 10000) :
    low16 (or32 (shl32 I 16) (f : Int)) = f := by
  rw [or32_shl32 I f (by omega), low16_toInt32 I f (by omega)]

theorem low16_decimal_neg (I : Int) (f : Nat) (hf : f < 10000) :
    low16 (or32 (shl32 I 16) (10000 - (f : Int))) = 10000 - f := by
  have e : (10000 - (f : Int)) = ((10000 - f : Nat) : Int) := by omega
  rw [e, or32_shl32 I _ (by omega), low16_toInt32 I _ (by omega)]

theorem high16_decimal_pos (I : Int) (f : Nat) (hf : f < 10000)
    (h1 : -32768 ≤ I) (h2 : I < 32768) :
    high16 (or32 (shl32 I 16) (f : Int)) = I := by
  rw [or32_shl32 I f (by omega), high16_toInt32 I f (by omega) h1 h2]

theorem high16_decimal_neg (I : Int) (f : Nat) (hf : f < 10000)
    (h1 : -32768 ≤ I) (h2 : I < 32768) :
    high16 (or32 (shl32 I 16) (10000 - (f : Int))) = I := by
  have e : (10000 - (f : Int)) = ((10000 - f : Nat) : Int) := by omega
  rw [e, or32_shl32 I _ (by omega), high16_toInt32 I _ (by omega) h1 h2]

/-- C8 (amended): range of the fraction field. For every configuration within
range with both resolutions non-zero whose ratio times 65536 is not an
integer, the call completes and the low 16 bits `v` of the ENC_CONST written
satisfy `0 ≤ v < 10000` for a positive encoder resolution and `0 < v ≤ 10000`
for a negative one. -/
theorem fraction_field_range (env : Env) (Axis : Nat) (st : RegFile)
    (hr : InRange (env.MotorConfig Axis) (env.GetTMC5160ChopperMStepRes (env.WHICH_5160 Axis)))
    (hfs : (env.MotorConfig Axis).MotorFullStepResolution ≠ 0)
    (henc : (env.MotorConfig Axis).EncoderResolution ≠ 0)
    (hne : ¬ ∃ N : ℤ, ratio (env.MotorConfig Axis)
      (env.GetTMC5160ChopperMStepRes (env.WHICH_5160 Axis)) * 65536 = (N : ℚ)) :
    ∃ st', CalculateEncoderParameters env Axis st = some st' ∧
      (0 < (env.MotorConfig Axis).EncoderResolution →
        low16 (st' (env.WHICH_5160 Axis) Reg.TMC5160_ENC_CONST) < 10000) ∧
      ((env.MotorConfig Axis).EncoderResolution < 0 →
        0 < low16 (st' (env.WHICH_5160 Axis) Reg.TMC5160_ENC_CONST) ∧
        low16 (st' (env.WHICH_5160 Axis) Reg.TMC5160_ENC_CONST) ≤ 10000) := by
  rw [ratio_exact_iff _ _ henc] at hne
  have hset := encoderSetting_decimal _ _ hr hfs henc hne
  obtain ⟨r1, r2, r3, r4⟩ := hr
  have hf := fracField_lt _ _ (Nat.mul_pos (by positivity) (by omega))
    (show 0 < (env.MotorConfig Axis).EncoderResolution.natAbs by omega) r2 (by omega)
    (mod_ne_zero_of_not_dvd _ _ hne)
  refine ⟨_, CalculateEncoderParameters_of_setting env Axis st _ hset, ?_, ?_⟩
  · intro hp
    rw [writeSetting_ENC_CONST]
    simp only
    rw [if_pos hp, low16_decimal_pos _ _ hf]
    exact hf
  · intro hn
    rw [writeSetting_ENC_CONST]
    simp only
    rw [if_neg (by omega), low16_decimal_neg _ _ hf]
    omega

/-- Witness of C8 (amended): 1 full step, exponent 8, encoder resolution
-20000. -/
theorem fraction_field_range_witness :
    InRange ((boardEnv (-20000) 1 8).MotorConfig 0) 8 ∧
    ∃ st', CalculateEncoderParameters (boardEnv (-20000) 1 8) 0 (fun _ _ => 0) = some st' ∧
      (0 < ((boardEnv (-20000) 1 8).MotorConfig 0).EncoderResolution →
        low16 (st' 0 Reg.TMC5160_ENC_CONST) < 10000) ∧
      (((boardEnv (-20000) 1 8).MotorConfig 0).EncoderResolution < 0 →
        0 < low16 (st' 0 Reg.TMC5160_ENC_CONST) ∧
        low16 (st' 0 Reg.TMC5160_ENC_CONST) ≤ 10000) :=
  ⟨by decide, fraction_field_range (boardEnv (-20000) 1 8) 0 (fun _ _ => 0) (by decide)
    (by decide) (by decide) ((ratio_exact_iff _ _ (by decide)).not.mpr (by decide))⟩

/-- C8 (counterexample): with 1 full step, exponent 8 and encoder resolution
-20000 (ratio 1/20000, not a multiple of 1/65536) the code writes
ENC_CONST = (-1 << 16) | 10000, whose low 16 bits hold 10000, which is not
below 10000. -/
theorem fraction_field_range_counterexample :
    InRange ((boardEnv (-20000) 1 8).MotorConfig 0) 8 ∧
    (¬ ∃ N : ℤ, ratio ((boardEnv (-20000) 1 8).MotorConfig 0) 8 * 65536 = (N : ℚ)) ∧
    ∃ st', CalculateEncoderParameters (boardEnv (-20000) 1 8) 0 (fun _ _ => 0) = some st' ∧
      st' 0 Reg.TMC5160_ENC_CONST = -55536 ∧
      low16 (st' 0 Reg.TMC5160_ENC_CONST) = 10000 ∧
      ¬ low16 (st' 0 Reg.TMC5160_ENC_CONST) < 10000 := by
  refine ⟨by decide, (ratio_exact_iff _ _ (by decide)).not.mpr (by decide), _,
    CalculateEncoderParameters_of_setting (boardEnv (-20000) 1 8) 0 (fun _ _ => 0) (true, -55536)
      (by decide), writeSetting_ENC_CONST _ _ _ _, ?_, ?_⟩
  · rw [show writeSetting (boardEnv (-20000) 1 8).TMC5160_EM_DECIMAL
        ((boardEnv (-20000) 1 8).WHICH_5160 0) (fun _ _ => 0) (true, -55536) 0
        Reg.TMC5160_ENC_CONST = -55536 from writeSetting_ENC_CONST _ _ _ _]
    decide
  · rw [show writeSetting (boardEnv (-20000) 1 8).TMC5160_EM_DECIMAL
        ((boardEnv (-20000) 1 8).WHICH_5160 0) (fun _ _ => 0) (true, -55536) 0
        Reg.TMC5160_ENC_CONST = -55536 from writeSetting_ENC_CONST _ _ _ _]
    decide

theorem inRange_neg (cfg : TMotorConfig) (mres : Nat) (h : InRange cfg mres) :
    InRange ⟨-cfg.EncoderResolution, cfg.MotorFullStepResolution⟩ mres := by
  obtain ⟨r1, r2, r3, r4⟩ := h
  exact ⟨r1, r2, by simp only; omega, by simp only; omega⟩

/-- C9 (amended): the negative decimal encoding represents the negated
magnitude. For every configuration within range (microstep exponent in `0..8`,
`motorSteps` below `2 ^ 31`) with a positive encoder resolution `r`, a
ratio that is not a multiple of 1/65536 and an integral part below 32768, the
calls for `+r` and for `-r` (same motor and microstep settings) complete, and
with `(Up, Lp)` and `(Un, Ln)` the signed upper and unsigned lower half of the
ENC_CONST written for `+r` and for `-r`, `Un + Ln / 10000 = -(Up + Lp / 10000)`
as exact rationals. -/
theorem negative_encoding_negates (env : Env) (Axis : Nat) (stP stN : RegFile)
    (hr : InRange (env.MotorConfig Axis) (env.GetTMC5160ChopperMStepRes (env.WHICH_5160 Axis)))
    (hfs : (env.MotorConfig Axis).MotorFullStepResolution ≠ 0)
    (hpos : 0 < (env.MotorConfig Axis).EncoderResolution)
    (hne : ¬ ∃ N : ℤ, ratio (env.MotorConfig Axis)
      (env.GetTMC5160ChopperMStepRes (env.WHICH_5160 Axis)) * 65536 = (N : ℚ))
    (hI : ⌊ratio (env.MotorConfig Axis)
      (env.GetTMC5160ChopperMStepRes (env.WHICH_5160 Axis))⌋ < 32768) :
    ∃ sP sN, CalculateEncoderParameters env Axis stP = some sP ∧
      CalculateEncoderParameters (invertEncoder env) Axis stN = some sN ∧
      decodeDecimal (sN (env.WHICH_5160 Axis) Reg.TMC5160_ENC_CONST) =
        -decodeDecimal (sP (env.WHICH_5160 Axis) Reg.TMC5160_ENC_CONST) := by
  have henc : (env.MotorConfig Axis).EncoderResolution ≠ 0 := by omega
  rw [ratio_exact_iff _ _ henc] at hne
  rw [ratio_eq, floor_ratio] at hI
  have hsetP := encoderSetting_decimal _ _ hr hfs henc hne
  have hsetN := encoderSetting_decimal
    ⟨-(env.MotorConfig Axis).EncoderResolution, (env.MotorConfig Axis).MotorFullStepResolution⟩
    _ (inRange_neg _ _ hr) hfs (by simp only; omega) (by simpa using hne)
  simp only [Int.natAbs_neg] at hsetN
  rw [if_pos hpos] at hsetP
  rw [if_neg (by omega)] at hsetN
  obtain ⟨r1, r2, r3, r4⟩ := hr
  have hf := fracField_lt _ _ (Nat.mul_pos (by positivity) (by omega))
    (show 0 < (env.MotorConfig Axis).EncoderResolution.natAbs by omega) r2 (by omega)
    (mod_ne_zero_of_not_dvd _ _ hne)
  refine ⟨_, _, CalculateEncoderParameters_of_setting env Axis stP _ hsetP,
    CalculateEncoderParameters_of_setting (invertEncoder env) Axis stN _ hsetN, ?_⟩
  have eN : writeSetting (invertEncoder env).TMC5160_EM_DECIMAL
      ((invertEncoder env).WHICH_5160 Axis) stN
      (true, or32 (shl32 (-((2 ^ (8 - env.GetTMC5160ChopperMStepRes (env.WHICH_5160 Axis)) *
        (env.MotorConfig Axis).MotorFullStepResolution /
        (env.MotorConfig Axis).EncoderResolution.natAbs : Nat) : Int) - 1) 16)
        (10000 - ((fracField (2 ^ (8 - env.GetTMC5160ChopperMStepRes (env.WHICH_5160 Axis)) *
          (env.MotorConfig Axis).MotorFullStepResolution)
          (env.MotorConfig Axis).EncoderResolution.natAbs : Nat) : Int)))
      (env.WHICH_5160 Axis) Reg.TMC5160_ENC_CONST = _ := writeSetting_ENC_CONST _ _ _ _
  rw [eN, writeSetting_ENC_CONST]
  simp only
  generalize fracField (2 ^ (8 - env.GetTMC5160ChopperMStepRes (env.WHICH_5160 Axis)) *
    (env.MotorConfig Axis).MotorFullStepResolution)
    (env.MotorConfig Axis).EncoderResolution.natAbs = f at *
  generalize 2 ^ (8 - env.GetTMC5160ChopperMStepRes (env.WHICH_5160 Axis)) *
    (env.MotorConfig Axis).MotorFullStepResolution /
    (env.MotorConfig Axis).EncoderResolution.natAbs = I at *
  have hI2 : (I : Int) < 32768 := hI
  unfold decodeDecimal
  rw [low16_decimal_pos _ _ hf, low16_decimal_neg _ _ hf,
    high16_decimal_pos _ _ hf (by omega) (by omega),
    high16_decimal_neg _ _ hf (by omega) (by omega)]
  rw [Nat.cast_sub (by omega)]
  push_cast
  ring

/-- Witness of C9 (amended): scenario C and scenario D. -/
theorem negative_encoding_negates_witness :
    InRange ((boardEnv 1000 200 0).MotorConfig 0) 0 ∧
    ∃ sP sN, CalculateEncoderParameters (boardEnv 1000 200 0) 0 (fun _ _ => 0) = some sP ∧
      CalculateEncoderParameters (invertEncoder (boardEnv 1000 200 0)) 0 (fun _ _ => 0) = some sN ∧
      decodeDecimal (sN 0 Reg.TMC5160_ENC_CONST) = -decodeDecimal (sP 0 Reg.TMC5160_ENC_CONST) :=
  ⟨by decide, negative_encoding_negates (boardEnv 1000 200 0) 0 (fun _ _ => 0) (fun _ _ => 0)
    (by decide) (by decide) (by decide) ((ratio_exact_iff _ _ (by decide)).not.mpr (by decide))
    (by rw [ratio_eq, floor_ratio]; decide)⟩

/-! ## `InitEncoder` -/

theorem InitEncoderLoop_frame (env : Env) (n : Nat) : ∀ (i : Nat) (st : RegFile) (d : Nat)
    (q : Reg), q ≠ Reg.TMC5160_ENC_CONST → InitEncoderLoop env n i st d q = st d q := by
  induction n with
  | zero => intro i st d q _; rfl
  | succ n ih =>
    intro i st d q hq
    unfold InitEncoderLoop
    rw [ih (i + 1) _ d q hq]
    simp [WriteTMC5160Int, hq]

theorem InitEncoderLoop_keep (env : Env) (n : Nat) : ∀ (i : Nat) (st : RegFile) (d : Nat),
    st d Reg.TMC5160_ENC_CONST = 65536 →
    InitEncoderLoop env n i st d Reg.TMC5160_ENC_CONST = 65536 := by
  induction n with
  | zero => intro i st d h; exact h
  | succ n ih =>
    intro i st d h
    unfold InitEncoderLoop
    apply ih
    simp only [WriteTMC5160Int]
    split
    · rfl
    · exact h

theorem InitEncoderLoop_const (env : Env) (n : Nat) : ∀ (i : Nat) (st : RegFile) (j : Nat),
    i ≤ j → j < i + n →
    InitEncoderLoop env n i st (env.WHICH_5160 j) Reg.TMC5160_ENC_CONST = 65536 := by
  induction n with
  | zero => intro i st j h1 h2; omega
  | succ n ih =>
    intro i st j h1 h2
    unfold InitEncoderLoop
    rcases Nat.eq_or_lt_of_le h1 with he | hl
    · subst he
      apply InitEncoderLoop_keep
      simp [WriteTMC5160Int]
    · exact ih (i + 1) _ j hl (by omega)

/-- The exact path without the assumption that the value fits an `int`. -/
theorem encoderSetting_exact_general (cfg : TMotorConfig) (mres N : Nat) (hr : InRange cfg mres)
    (hfs : cfg.MotorFullStepResolution ≠ 0) (henc : cfg.EncoderResolution ≠ 0)
    (hN : 2 ^ (8 - mres) * cfg.MotorFullStepResolution * 65536 =
      N * cfg.EncoderResolution.natAbs) :
    encoderSetting cfg mres =
      (checked32 (N : Int)).bind fun p =>
        (if cfg.EncoderResolution < 0 then checked32 (-p) else some p).bind fun q =>
          some (false, q) := by
  obtain ⟨r1, r2, r3, r4⟩ := hr
  have ha : 0 < 2 ^ (8 - mres) * cfg.MotorFullStepResolution :=
    Nat.mul_pos (by positivity) (by omega)
  have hb : 0 < cfg.EncoderResolution.natAbs := by omega
  have hb2 : cfg.EncoderResolution.natAbs < 2147483648 := by omega
  unfold encoderSetting
  rw [if_neg (by simp [hfs, henc]), MotorSteps_of_range _ _ r1 r2, abs32_of_range _ r3 r4]
  simp only [Option.some_bind]
  rw [exact_test _ _ ha hb r2 hb2]
  have hd : cfg.EncoderResolution.natAbs ∣
      2 ^ (8 - mres) * cfg.MotorFullStepResolution * 65536 := ⟨N, by rw [hN]; ring⟩
  simp only [hd, decide_True, if_true]
  unfold Dbl.toInt
  rw [exact_value _ _ N ha hb r2 hb2 hN]

theorem checked32_eq_some (x y : Int) (h : checked32 x = some y) :
    y = x ∧ -2147483648 ≤ x ∧ x ≤ 2147483647 := by
  unfold checked32 INT_MIN INT_MAX at h
  split at h
  · rename_i hx
    simp only [Option.some.injEq] at h
    exact ⟨h.symm, hx.1, hx.2⟩
  · exact absurd h (by simp)

/-- C7 (amended): flag and prescaler are consistent after
`CalculateEncoderParameters`, not after `InitEncoder`. After every completed
call of `CalculateEncoderParameters`, from any prior register state, the
decimal-mode flag matches the encoding of the value written: in the degenerate
case it is clear and the value is the binary 65536; on a configuration within
range whose ratio times 65536 is an integer `N` it is clear and the value is
`N` or `-N`; on one whose ratio is not such a multiple it is set and the value
is the split `(I << 16) | f` or `((-I - 1) << 16) | (10000 - f)` with `f` the
truncated fraction `⌊F * 10000⌋` or one less. `InitEncoder` writes the binary
65536 to ENC_CONST of every axis and leaves ENCMODE as it was. -/
theorem flag_matches_encoding :
    (∀ (env : Env) (Axis : Nat) (st st' : RegFile),
      CalculateEncoderParameters env Axis st = some st' →
      (((env.MotorConfig Axis).MotorFullStepResolution = 0 ∨
          (env.MotorConfig Axis).EncoderResolution = 0) →
        decimalClear env (st' (env.WHICH_5160 Axis) Reg.TMC5160_ENCMODE) ∧
        st' (env.WHICH_5160 Axis) Reg.TMC5160_ENC_CONST = 65536) ∧
      ((env.MotorConfig Axis).MotorFullStepResolution ≠ 0 →
        (env.MotorConfig Axis).EncoderResolution ≠ 0 →
        InRange (env.MotorConfig Axis) (env.GetTMC5160ChopperMStepRes (env.WHICH_5160 Axis)) →
        (∀ N : ℤ, ratio (env.MotorConfig Axis)
            (env.GetTMC5160ChopperMStepRes (env.WHICH_5160 Axis)) * 65536 = (N : ℚ) →
          decimalClear env (st' (env.WHICH_5160 Axis) Reg.TMC5160_ENCMODE) ∧
          st' (env.WHICH_5160 Axis) Reg.TMC5160_ENC_CONST =
            if 0 < (env.MotorConfig Axis).EncoderResolution then N else -N) ∧
        ((¬ ∃ N : ℤ, ratio (env.MotorConfig Axis)
            (env.GetTMC5160ChopperMStepRes (env.WHICH_5160 Axis)) * 65536 = (N : ℚ)) →
          decimalSet env (st' (env.WHICH_5160 Axis) Reg.TMC5160_ENCMODE) ∧
          ∃ f : ℕ,
            (f : ℤ) ≤ ⌊Int.fract (ratio (env.MotorConfig Axis)
              (env.GetTMC5160ChopperMStepRes (env.WHICH_5160 Axis))) * 10000⌋ ∧
            ⌊Int.fract (ratio (env.MotorConfig Axis)
              (env.GetTMC5160ChopperMStepRes (env.WHICH_5160 Axis))) * 10000⌋ ≤ (f : ℤ) + 1 ∧
            st' (env.WHICH_5160 Axis) Reg.TMC5160_ENC_CONST =
              if 0 < (env.MotorConfig Axis).EncoderResolution then
                or32 (shl32 ⌊ratio (env.MotorConfig Axis)
                  (env.GetTMC5160ChopperMStepRes (env.WHICH_5160 Axis))⌋ 16) (f : ℤ)
              else
                or32 (shl32 (-⌊ratio (env.MotorConfig Axis)
                  (env.GetTMC5160ChopperMStepRes (env.WHICH_5160 Axis))⌋ - 1) 16)
                  (10000 - (f : ℤ))))) ∧
    (∀ (env : Env) (st : RegFile) (i : Nat), i < env.N_O_MOTORS →
      InitEncoder env st (env.WHICH_5160 i) Reg.TMC5160_ENC_CONST = 65536 ∧
      InitEncoder env st (env.WHICH_5160 i) Reg.TMC5160_ENCMODE =
        st (env.WHICH_5160 i) Reg.TMC5160_ENCMODE) := by
  refine ⟨?_, ?_⟩
  · intro env Axis st st' h
    rw [CalculateEncoderParameters_eq] at h
    cases hs : encoderSetting (env.MotorConfig Axis)
        (env.GetTMC5160ChopperMStepRes (env.WHICH_5160 Axis)) with
    | none => rw [hs] at h; exact absurd h (by simp)
    | some r =>
      rw [hs] at h
      simp only [Option.map_some', Option.some.injEq] at h
      subst h
      refine ⟨?_, ?_⟩
      · intro hdeg
        have hd := encoderSetting_degenerate _
          (env.GetTMC5160ChopperMStepRes (env.WHICH_5160 Axis)) hdeg
        rw [hs, Option.some.injEq] at hd
        subst hd
        exact ⟨writeSetting_clear env _ st _, writeSetting_ENC_CONST _ _ st _⟩
      · intro hfs henc hr
        refine ⟨?_, ?_⟩
        · intro N hN
          obtain ⟨hN0, hnat⟩ := exact_nat_of_ratio _ _ N henc hfs hN
          have hg := encoderSetting_exact_general _ _ N.toNat hr hfs henc hnat
          rw [hs, Int.toNat_of_nonneg hN0] at hg
          cases hc : checked32 N with
          | none => rw [hc] at hg; exact absurd hg (by simp)
          | some p =>
            obtain ⟨hp, -, -⟩ := checked32_eq_some _ _ hc
            subst hp
            rw [hc, Option.some_bind] at hg
            by_cases hneg : (env.MotorConfig Axis).EncoderResolution < 0
            · rw [if_pos hneg] at hg
              cases hc2 : checked32 (-p) with
              | none => rw [hc2] at hg; exact absurd hg (by simp)
              | some q =>
                obtain ⟨hq, -, -⟩ := checked32_eq_some _ _ hc2
                subst hq
                rw [hc2, Option.some_bind, Option.some.injEq] at hg
                subst hg
                refine ⟨writeSetting_clear env _ st _, ?_⟩
                rw [writeSetting_ENC_CONST, if_neg (by omega)]
            · rw [if_neg hneg, Option.some_bind, Option.some.injEq] at hg
              subst hg
              refine ⟨writeSetting_clear env _ st _, ?_⟩
              rw [writeSetting_ENC_CONST, if_pos (by omega)]
        · intro hne
          rw [ratio_exact_iff _ _ henc] at hne
          have hd := encoderSetting_decimal _ _ hr hfs henc hne
          rw [hs, Option.some.injEq] at hd
          subst hd
          obtain ⟨r1, r2, r3, r4⟩ := hr
          obtain ⟨u1, u2, -⟩ := fracField_bounds _ _ (Nat.mul_pos (by positivity) (by omega))
            (show 0 < (env.MotorConfig Axis).EncoderResolution.natAbs by omega) r2 (by omega)
            (mod_ne_zero_of_not_dvd _ _ hne)
          refine ⟨writeSetting_set env _ st _,
            fracField (2 ^ (8 - env.GetTMC5160ChopperMStepRes (env.WHICH_5160 Axis)) *
              (env.MotorConfig Axis).MotorFullStepResolution)
              (env.MotorConfig Axis).EncoderResolution.natAbs, ?_, ?_, ?_⟩
          · rw [ratio_eq, floor_fract_ratio_mul]
            exact_mod_cast u1
          · rw [ratio_eq, floor_fract_ratio_mul]
            exact_mod_cast u2
          · rw [writeSetting_ENC_CONST, ratio_eq, floor_ratio]
  · intro env st i hi
    unfold InitEncoder
    exact ⟨InitEncoderLoop_const env _ 0 st i (Nat.zero_le _) (by omega),
      InitEncoderLoop_frame env _ 0 st _ _ (by decide)⟩

/-- Witness of C7 (amended): scenario C from a state with the flag clear. -/
theorem flag_matches_encoding_witness :
    CalculateEncoderParameters (boardEnv 1000 200 0) 0 (fun _ _ => 0) =
      some (writeSetting 1024 0 (fun _ _ => 0) (true, 3344336)) ∧
    decimalSet (boardEnv 1000 200 0)
      (writeSetting 1024 0 (fun _ _ => 0) (true, 3344336) 0 Reg.TMC5160_ENCMODE) :=
  ⟨CalculateEncoderParameters_of_setting (boardEnv 1000 200 0) 0 _ (true, 3344336) (by decide),
    ((flag_matches_encoding.1 (boardEnv 1000 200 0) 0 (fun _ _ => 0) _
      (CalculateEncoderParameters_of_setting (boardEnv 1000 200 0) 0 _ (true, 3344336)
        (by decide))).2 (by decide) (by decide) (by decide)).2
      ((ratio_exact_iff _ _ (by decide)).not.mpr (by decide)) |>.1⟩

/-- C7 (counterexample): `InitEncoder` from a state in which the decimal-mode
flag is set (ENCMODE = 0x400) writes the binary value 65536 to ENC_CONST and
leaves the flag set. -/
theorem init_flag_counterexample :
    InitEncoder (boardEnv 1000 200 0) (fun _ _ => 1024) 0 Reg.TMC5160_ENC_CONST = 65536 ∧
    decimalSet (boardEnv 1000 200 0)
      (InitEncoder (boardEnv 1000 200 0) (fun _ _ => 1024) 0 Reg.TMC5160_ENCMODE) ∧
    ¬ decimalClear (boardEnv 1000 200 0)
      (InitEncoder (boardEnv 1000 200 0) (fun _ _ => 1024) 0 Reg.TMC5160_ENCMODE) := by
  decide

/-! ## Position register -/

/-- C11: position round-trip. For every axis, register state and value `v`,
`SetEncoderPosition (axis, v)` followed by `GetEncoderPosition (axis)` returns
`v`, the register interface returning the most recently written value. -/
theorem position_round_trip (env : Env) (Axis : Nat) (st : RegFile) (v : Int) :
    GetEncoderPosition env Axis (SetEncoderPosition env Axis v st) = v := by
  simp [GetEncoderPosition, SetEncoderPosition, ReadTMC5160Int, WriteTMC5160Int]

theorem InitEncoderLoop_untouched (env : Env) (n : Nat) : ∀ (i : Nat) (st : RegFile) (d : Nat),
    (∀ j, i ≤ j → j < i + n → env.WHICH_5160 j ≠ d) →
    InitEncoderLoop env n i st d Reg.TMC5160_ENC_CONST = st d Reg.TMC5160_ENC_CONST := by
  induction n with
  | zero => intro i st d _; rfl
  | succ n ih =>
    intro i st d h
    unfold InitEncoderLoop
    rw [ih (i + 1) _ d (fun j h1 h2 => h j (by omega) (by omega))]
    have hd : d ≠ env.WHICH_5160 i := fun e => h i le_rfl (by omega) e.symm
    simp [WriteTMC5160Int, hd]

/-- C12: default of `InitEncoder`. For every prior register state, after
`InitEncoder` the register ENC_CONST of the device of every axis
`i < N_O_MOTORS` holds 65536, and nothing else is changed: every ENCMODE and
XENC register, and ENC_CONST of a device that belongs to no axis, hold what
they held before. -/
theorem init_writes_default (env : Env) (st : RegFile) :
    (∀ i, i < env.N_O_MOTORS →
      InitEncoder env st (env.WHICH_5160 i) Reg.TMC5160_ENC_CONST = 65536) ∧
    (∀ d, InitEncoder env st d Reg.TMC5160_ENCMODE = st d Reg.TMC5160_ENCMODE) ∧
    (∀ d, InitEncoder env st d Reg.TMC5160_XENC = st d Reg.TMC5160_XENC) ∧
    (∀ d, (∀ i, i < env.N_O_MOTORS → env.WHICH_5160 i ≠ d) →
      InitEncoder env st d Reg.TMC5160_ENC_CONST = st d Reg.TMC5160_ENC_CONST) := by
  unfold InitEncoder
  refine ⟨fun i hi => InitEncoderLoop_const env _ 0 st i (Nat.zero_le _) (by omega),
    fun d => InitEncoderLoop_frame env _ 0 st d _ (by decide),
    fun d => InitEncoderLoop_frame env _ 0 st d _ (by decide),
    fun d h => InitEncoderLoop_untouched env _ 0 st d (fun j _ h2 => h j (by omega))⟩

/-- C13: the position functions pass through. `GetEncoderPosition` returns
exactly the content of the position register XENC of the device of the axis (a
read yields a value and no new register state); `SetEncoderPosition` makes that
register hold the given value, untransformed, and leaves every other register,
ENCMODE and ENC_CONST among them, as it was. -/
theorem position_pass_through (env : Env) (Axis : Nat) (st : RegFile) (v : Int) :
    GetEncoderPosition env Axis st = st (env.WHICH_5160 Axis) Reg.TMC5160_XENC ∧
    SetEncoderPosition env Axis v st (env.WHICH_5160 Axis) Reg.TMC5160_XENC = v ∧
    (∀ d, SetEncoderPosition env Axis v st d Reg.TMC5160_ENCMODE = st d Reg.TMC5160_ENCMODE) ∧
    (∀ d, SetEncoderPosition env Axis v st d Reg.TMC5160_ENC_CONST =
      st d Reg.TMC5160_ENC_CONST) ∧
    (∀ d q, d ≠ env.WHICH_5160 Axis → SetEncoderPosition env Axis v st d q = st d q) := by
  refine ⟨rfl, ?_, ?_, ?_, ?_⟩
  · simp [SetEncoderPosition, WriteTMC5160Int]
  · intro d; simp [SetEncoderPosition, WriteTMC5160Int]
  · intro d; simp [SetEncoderPosition, WriteTMC5160Int]
  · intro d q hd; simp [SetEncoderPosition, WriteTMC5160Int, hd]

/-! ## Repeating `CalculateEncoderParameters` -/

theorem toWord_and32 (x y : Int) : toWord (and32 x y) = toWord x &&& toWord y := by
  unfold and32
  rw [toWord_toInt32, toWord_natCast _ (Nat.and_lt_two_pow _ (toWord_lt y))]

theorem toWord_or32 (x y : Int) : toWord (or32 x y) = toWord x ||| toWord y := by
  unfold or32
  rw [toWord_toInt32, toWord_natCast _ (Nat.or_lt_two_pow (toWord_lt x) (toWord_lt y))]

theorem and32_idem (x y : Int) : and32 (and32 x y) y = and32 x y := by
  have h : toWord (and32 x y) &&& toWord y = toWord x &&& toWord y := by
    rw [toWord_and32, Nat.and_assoc, Nat.and_self]
  unfold and32 at h ⊢
  rw [h]

theorem or32_idem (x y : Int) : or32 (or32 x y) y = or32 x y := by
  have h : toWord (or32 x y) ||| toWord y = toWord x ||| toWord y := by
    rw [toWord_or32, Nat.or_assoc, Nat.or_self]
  unfold or32 at h ⊢
  rw [h]

theorem writeSetting_idem (mask : Int) (dev : Nat) (st : RegFile) (r : Bool × Int) :
    writeSetting mask dev (writeSetting mask dev st r) r = writeSetting mask dev st r := by
  funext d q
  by_cases hd : d = dev
  · subst hd
    cases q with
    | TMC5160_ENCMODE =>
      rw [writeSetting_ENCMODE, writeSetting_ENCMODE]
      split
      · exact or32_idem _ _
      · exact and32_idem _ _
    | TMC5160_XENC => rw [writeSetting_XENC, writeSetting_XENC]
    | TMC5160_ENC_CONST => rw [writeSetting_ENC_CONST, writeSetting_ENC_CONST]
  · rw [writeSetting_other _ _ _ _ _ _ hd, writeSetting_other _ _ _ _ _ _ hd]

theorem writeSetting_flag (mask : Int) (dev : Nat) (st : RegFile) (r : Bool × Int) :
    and32 (writeSetting mask dev st r dev Reg.TMC5160_ENCMODE) mask =
      if r.1 then toInt32 mask else 0 := by
  rw [writeSetting_ENCMODE]
  split
  · apply and32_eq_right
    intro i hi
    rw [bit32_or32, hi]; simp
  · apply and32_eq_zero
    intro i
    rw [bit32_and32, bit32_not32]
    cases bit32 mask i <;> simp

/-- C16: idempotence of `CalculateEncoderParameters`. For every axis,
configuration, microstep exponent and prior register state, two calls in a row
leave exactly the register state that one call leaves (and are undefined when
one call is); and the ENC_CONST value and the decimal-mode flag a call leaves
are the same for any two boards and prior states that agree on the
configuration of the axis, the microstep exponent and the flag mask: they do
not depend on the prior register contents. -/
theorem calculate_idempotent :
    (∀ (env : Env) (Axis : Nat) (st : RegFile),
      (CalculateEncoderParameters env Axis st).bind (CalculateEncoderParameters env Axis) =
        CalculateEncoderParameters env Axis st) ∧
    (∀ (env1 env2 : Env) (Axis1 Axis2 : Nat) (st1 st2 : RegFile),
      env1.MotorConfig Axis1 = env2.MotorConfig Axis2 →
      env1.GetTMC5160ChopperMStepRes (env1.WHICH_5160 Axis1) =
        env2.GetTMC5160ChopperMStepRes (env2.WHICH_5160 Axis2) →
      env1.TMC5160_EM_DECIMAL = env2.TMC5160_EM_DECIMAL →
      (CalculateEncoderParameters env1 Axis1 st1).map (fun s =>
          (s (env1.WHICH_5160 Axis1) Reg.TMC5160_ENC_CONST,
            and32 (s (env1.WHICH_5160 Axis1) Reg.TMC5160_ENCMODE) env1.TMC5160_EM_DECIMAL)) =
        (CalculateEncoderParameters env2 Axis2 st2).map (fun s =>
          (s (env2.WHICH_5160 Axis2) Reg.TMC5160_ENC_CONST,
            and32 (s (env2.WHICH_5160 Axis2) Reg.TMC5160_ENCMODE) env2.TMC5160_EM_DECIMAL))) := by
  refine ⟨?_, ?_⟩
  · intro env Axis st
    cases hs : encoderSetting (env.MotorConfig Axis)
        (env.GetTMC5160ChopperMStepRes (env.WHICH_5160 Axis)) with
    | none =>
      rw [CalculateEncoderParameters_eq, hs, Option.map_none', Option.none_bind]
    | some r =>
      rw [CalculateEncoderParameters_of_setting env Axis st r hs, Option.some_bind,
        CalculateEncoderParameters_of_setting env Axis _ r hs, writeSetting_idem]
  · intro env1 env2 Axis1 Axis2 st1 st2 hcfg hm hmask
    rw [CalculateEncoderParameters_eq, CalculateEncoderParameters_eq, hcfg, hm, hmask]
    cases encoderSetting (env2.MotorConfig Axis2)
        (env2.GetTMC5160ChopperMStepRes (env2.WHICH_5160 Axis2)) with
    | none => simp only [Option.map_none']
    | some r =>
      simp only [Option.map_some', Option.some.injEq]
      rw [writeSetting_ENC_CONST, writeSetting_ENC_CONST, writeSetting_flag, writeSetting_flag]

/-- Witness of C16: scenario C, from two different prior states. -/
theorem calculate_idempotent_witness :
    (CalculateEncoderParameters (boardEnv 1000 200 0) 0 (fun _ _ => 305419896)).bind
        (CalculateEncoderParameters (boardEnv 1000 200 0) 0) =
      CalculateEncoderParameters (boardEnv 1000 200 0) 0 (fun _ _ => 305419896) ∧
    (CalculateEncoderParameters (boardEnv 1000 200 0) 0 (fun _ _ => 305419896)).map (fun s =>
        (s 0 Reg.TMC5160_ENC_CONST, and32 (s 0 Reg.TMC5160_ENCMODE) 1024)) =
      (CalculateEncoderParameters (boardEnv 1000 200 0) 0 (fun _ _ => -1)).map (fun s =>
        (s 0 Reg.TMC5160_ENC_CONST, and32 (s 0 Reg.TMC5160_ENCMODE) 1024)) :=
  ⟨calculate_idempotent.1 (boardEnv 1000 200 0) 0 (fun _ _ => 305419896),
    calculate_idempotent.2 (boardEnv 1000 200 0) (boardEnv 1000 200 0) 0 0
      (fun _ _ => 305419896) (fun _ _ => -1) rfl rfl rfl⟩

/-! ## Absence of overflow -/

theorem shl32_exact (x : Int) (h1 : -32768 ≤ x) (h2 : x < 32768) :
    shl32 x 16 = x * 65536 := by
  unfold shl32
  rw [toInt32_of_range _ (by norm_num; omega) (by norm_num; omega)]
  norm_num

theorem or32_shl32_exact (x : Int) (f : Nat) (hf : f < 65536)
    (h1 : -32768 ≤ x) (h2 : x < 32768) :
    or32 (shl32 x 16) (f : Int) = x * 65536 + f := by
  rw [or32_shl32 x f hf, toInt32_of_range _ (by omega) (by omega)]

theorem ratio_lt_nat (cfg : TMotorConfig) (mres : Nat) (henc : cfg.EncoderResolution ≠ 0)
    (h : ratio cfg mres < 32768) :
    2 ^ (8 - mres) * cfg.MotorFullStepResolution < 32768 * cfg.EncoderResolution.natAbs := by
  have hb : 0 < cfg.EncoderResolution.natAbs := by omega
  rw [ratio_eq] at h
  generalize cfg.EncoderResolution.natAbs = b at *
  generalize 2 ^ (8 - mres) * cfg.MotorFullStepResolution = a at *
  have hb0 : (0 : ℚ) < (b : ℚ) := by exact_mod_cast hb
  rw [div_lt_iff₀ hb0] at h
  exact_mod_cast h

theorem floor_ratio_cfg (cfg : TMotorConfig) (mres : Nat) :
    ⌊ratio cfg mres⌋ = ((2 ^ (8 - mres) * cfg.MotorFullStepResolution /
      cfg.EncoderResolution.natAbs : Nat) : ℤ) := by
  rw [ratio_eq, floor_ratio]

theorem floor_fract_ratio_cfg (cfg : TMotorConfig) (mres : Nat) :
    ⌊Int.fract (ratio cfg mres) * 10000⌋ =
      ((2 ^ (8 - mres) * cfg.MotorFullStepResolution % cfg.EncoderResolution.natAbs * 10000 /
        cfg.EncoderResolution.natAbs : Nat) : ℤ) := by
  rw [ratio_eq, floor_fract_ratio_mul]

/-- C15 (amended): no 32-bit overflow under the natural precondition. For every
configuration within range (microstep exponent in `0..8`, `motorSteps` below
`2 ^ 31`, encoder resolution an `int` other than `INT_MIN`) with both
resolutions non-zero and a ratio below 32768, `MotorSteps`
and `abs` hold their unbounded values, the call completes, the value written to
ENC_CONST lies in `[-2 ^ 31, 2 ^ 31)` and equals its unbounded-integer value on
each branch: `N` or `-N` when the ratio times 65536 is an integer `N`, and
otherwise `I * 65536 + f` or `(-I - 1) * 65536 + (10000 - f)`, where the shifts
do not wrap and the OR of the two halves is their sum. -/
theorem no_overflow_in_range (env : Env) (Axis : Nat) (st : RegFile)
    (hr : InRange (env.MotorConfig Axis) (env.GetTMC5160ChopperMStepRes (env.WHICH_5160 Axis)))
    (hfs : (env.MotorConfig Axis).MotorFullStepResolution ≠ 0)
    (henc : (env.MotorConfig Axis).EncoderResolution ≠ 0)
    (hratio : ratio (env.MotorConfig Axis)
      (env.GetTMC5160ChopperMStepRes (env.WHICH_5160 Axis)) < 32768) :
    MotorSteps (env.GetTMC5160ChopperMStepRes (env.WHICH_5160 Axis))
        (env.MotorConfig Axis).MotorFullStepResolution =
      some ((2 ^ (8 - env.GetTMC5160ChopperMStepRes (env.WHICH_5160 Axis)) *
        (env.MotorConfig Axis).MotorFullStepResolution : Nat) : Int) ∧
    abs32 (env.MotorConfig Axis).EncoderResolution =
      some |(env.MotorConfig Axis).EncoderResolution| ∧
    ∃ st', CalculateEncoderParameters env Axis st = some st' ∧
      INT_MIN ≤ st' (env.WHICH_5160 Axis) Reg.TMC5160_ENC_CONST ∧
      st' (env.WHICH_5160 Axis) Reg.TMC5160_ENC_CONST ≤ INT_MAX ∧
      (∀ N : ℤ, ratio (env.MotorConfig Axis)
          (env.GetTMC5160ChopperMStepRes (env.WHICH_5160 Axis)) * 65536 = (N : ℚ) →
        0 ≤ N ∧ N ≤ INT_MAX ∧
        st' (env.WHICH_5160 Axis) Reg.TMC5160_ENC_CONST =
          if 0 < (env.MotorConfig Axis).EncoderResolution then N else -N) ∧
      ((¬ ∃ N : ℤ, ratio (env.MotorConfig Axis)
          (env.GetTMC5160ChopperMStepRes (env.WHICH_5160 Axis)) * 65536 = (N : ℚ)) →
        ∃ f : ℕ, f < 10000 ∧
          (f : ℤ) ≤ ⌊Int.fract (ratio (env.MotorConfig Axis)
            (env.GetTMC5160ChopperMStepRes (env.WHICH_5160 Axis))) * 10000⌋ ∧
          ⌊Int.fract (ratio (env.MotorConfig Axis)
            (env.GetTMC5160ChopperMStepRes (env.WHICH_5160 Axis))) * 10000⌋ ≤ (f : ℤ) + 1 ∧
          (0 < (env.MotorConfig Axis).EncoderResolution →
            shl32 ⌊ratio (env.MotorConfig Axis)
              (env.GetTMC5160ChopperMStepRes (env.WHICH_5160 Axis))⌋ 16 =
              ⌊ratio (env.MotorConfig Axis)
                (env.GetTMC5160ChopperMStepRes (env.WHICH_5160 Axis))⌋ * 65536 ∧
            or32 (shl32 ⌊ratio (env.MotorConfig Axis)
              (env.GetTMC5160ChopperMStepRes (env.WHICH_5160 Axis))⌋ 16) (f : ℤ) =
              ⌊ratio (env.MotorConfig Axis)
                (env.GetTMC5160ChopperMStepRes (env.WHICH_5160 Axis))⌋ * 65536 + (f : ℤ) ∧
            st' (env.WHICH_5160 Axis) Reg.TMC5160_ENC_CONST =
              ⌊ratio (env.MotorConfig Axis)
                (env.GetTMC5160ChopperMStepRes (env.WHICH_5160 Axis))⌋ * 65536 + (f : ℤ)) ∧
          ((env.MotorConfig Axis).EncoderResolution < 0 →
            shl32 (-⌊ratio (env.MotorConfig Axis)
              (env.GetTMC5160ChopperMStepRes (env.WHICH_5160 Axis))⌋ - 1) 16 =
              (-⌊ratio (env.MotorConfig Axis)
                (env.GetTMC5160ChopperMStepRes (env.WHICH_5160 Axis))⌋ - 1) * 65536 ∧
            or32 (shl32 (-⌊ratio (env.MotorConfig Axis)
              (env.GetTMC5160ChopperMStepRes (env.WHICH_5160 Axis))⌋ - 1) 16)
                (10000 - (f : ℤ)) =
              (-⌊ratio (env.MotorConfig Axis)
                (env.GetTMC5160ChopperMStepRes (env.WHICH_5160 Axis))⌋ - 1) * 65536 +
                (10000 - (f : ℤ)) ∧
            st' (env.WHICH_5160 Axis) Reg.TMC5160_ENC_CONST =
              (-⌊ratio (env.MotorConfig Axis)
                (env.GetTMC5160ChopperMStepRes (env.WHICH_5160 Axis))⌋ - 1) * 65536 +
                (10000 - (f : ℤ)))) := by
  have hlt := ratio_lt_nat _ _ henc hratio
  have hr' := hr
  obtain ⟨r1, r2, r3, r4⟩ := hr
  have ha : 0 < 2 ^ (8 - env.GetTMC5160ChopperMStepRes (env.WHICH_5160 Axis)) *
      (env.MotorConfig Axis).MotorFullStepResolution := Nat.mul_pos (by positivity) (by omega)
  have hb : 0 < (env.MotorConfig Axis).EncoderResolution.natAbs := by omega
  have hb2 : (env.MotorConfig Axis).EncoderResolution.natAbs < 2147483648 := by omega
  have hI : 2 ^ (8 - env.GetTMC5160ChopperMStepRes (env.WHICH_5160 Axis)) *
      (env.MotorConfig Axis).MotorFullStepResolution /
      (env.MotorConfig Axis).EncoderResolution.natAbs < 32768 :=
    (Nat.div_lt_iff_lt_mul hb).mpr hlt
  refine ⟨MotorSteps_of_range _ _ r1 r2, ?_, ?_⟩
  · rw [abs32_of_range _ r3 r4, Int.natCast_natAbs]
  by_cases hd : (env.MotorConfig Axis).EncoderResolution.natAbs ∣
      2 ^ (8 - env.GetTMC5160ChopperMStepRes (env.WHICH_5160 Axis)) *
        (env.MotorConfig Axis).MotorFullStepResolution * 65536
  · obtain ⟨k, hk⟩ := hd
    have hk' : 2 ^ (8 - env.GetTMC5160ChopperMStepRes (env.WHICH_5160 Axis)) *
        (env.MotorConfig Axis).MotorFullStepResolution * 65536 =
        k * (env.MotorConfig Axis).EncoderResolution.natAbs := by rw [hk]; ring
    have hkfit : k < 2147483648 := by
      have h1 : k * (env.MotorConfig Axis).EncoderResolution.natAbs <
          2147483648 * (env.MotorConfig Axis).EncoderResolution.natAbs := by
        rw [← hk']; omega
      exact lt_of_mul_lt_mul_right h1 (Nat.zero_le _)
    have hset := encoderSetting_exact _ _ k hr' hfs henc hk' hkfit
    refine ⟨_, CalculateEncoderParameters_of_setting env Axis st _ hset, ?_, ?_, ?_, ?_⟩
    · rw [writeSetting_ENC_CONST]; unfold INT_MIN; simp only; split <;> omega
    · rw [writeSetting_ENC_CONST]; unfold INT_MAX; simp only; split <;> omega
    · intro N hN
      obtain ⟨hN0, hnat⟩ := exact_nat_of_ratio _ _ N henc hfs hN
      have hkN : N.toNat = k := by
        have h1 : N.toNat * (env.MotorConfig Axis).EncoderResolution.natAbs =
            k * (env.MotorConfig Axis).EncoderResolution.natAbs := by rw [← hnat, hk']
        exact Nat.eq_of_mul_eq_mul_right hb h1
      have hNk : N = (k : ℤ) := by omega
      subst hNk
      refine ⟨hN0, by unfold INT_MAX; omega, ?_⟩
      rw [writeSetting_ENC_CONST]
      simp only
      by_cases hp : 0 < (env.MotorConfig Axis).EncoderResolution
      · rw [if_neg (by omega), if_pos hp]
      · rw [if_pos (by omega), if_neg hp]
    · intro hne
      exact absurd ((ratio_exact_iff _ _ henc).mpr ⟨k, hk⟩) hne
  · have hset := encoderSetting_decimal _ _ hr' hfs henc hd
    have hmod := mod_ne_zero_of_not_dvd _ _ hd
    have hf := fracField_lt _ _ ha hb r2 hb2 hmod
    obtain ⟨u1, u2, -⟩ := fracField_bounds _ _ ha hb r2 hb2 hmod
    refine ⟨_, CalculateEncoderParameters_of_setting env Axis st _ hset, ?_⟩
    rw [writeSetting_ENC_CONST]
    simp only [floor_ratio_cfg, floor_fract_ratio_cfg]
    generalize fracField (2 ^ (8 - env.GetTMC5160ChopperMStepRes (env.WHICH_5160 Axis)) *
      (env.MotorConfig Axis).MotorFullStepResolution)
      (env.MotorConfig Axis).EncoderResolution.natAbs = f at *
    generalize 2 ^ (8 - env.GetTMC5160ChopperMStepRes (env.WHICH_5160 Axis)) *
      (env.MotorConfig Axis).MotorFullStepResolution /
      (env.MotorConfig Axis).EncoderResolution.natAbs = I at *
    generalize 2 ^ (8 - env.GetTMC5160ChopperMStepRes (env.WHICH_5160 Axis)) *
      (env.MotorConfig Axis).MotorFullStepResolution %
      (env.MotorConfig Axis).EncoderResolution.natAbs * 10000 /
      (env.MotorConfig Axis).EncoderResolution.natAbs = m at *
    have e : (10000 : ℤ) - (f : ℤ) = ((10000 - f : ℕ) : ℤ) := by omega
    have rP1 : (-2147483648 : ℤ) ≤ (I : ℤ) * 65536 + (f : ℤ) := by omega
    have rP2 : (I : ℤ) * 65536 + (f : ℤ) ≤ 2147483647 := by omega
    have rN1 : (-2147483648 : ℤ) ≤ (-(I : ℤ) - 1) * 65536 + (10000 - (f : ℤ)) := by omega
    have rN2 : (-(I : ℤ) - 1) * 65536 + (10000 - (f : ℤ)) ≤ 2147483647 := by omega
    have vP : or32 (shl32 (I : ℤ) 16) (f : ℤ) = (I : ℤ) * 65536 + (f : ℤ) :=
      or32_shl32_exact _ _ (by omega) (by omega) (by omega)
    have vN : or32 (shl32 (-(I : ℤ) - 1) 16) (10000 - (f : ℤ)) =
        (-(I : ℤ) - 1) * 65536 + (10000 - (f : ℤ)) := by
      rw [e, or32_shl32_exact _ _ (by omega) (by omega) (by omega)]
    have sP : shl32 (I : ℤ) 16 = (I : ℤ) * 65536 := shl32_exact _ (by omega) (by omega)
    have sN : shl32 (-(I : ℤ) - 1) 16 = (-(I : ℤ) - 1) * 65536 :=
      shl32_exact _ (by omega) (by omega)
    have hval : (if 0 < (env.MotorConfig Axis).EncoderResolution then
          or32 (shl32 (I : ℤ) 16) (f : ℤ)
        else or32 (shl32 (-(I : ℤ) - 1) 16) (10000 - (f : ℤ))) =
        if 0 < (env.MotorConfig Axis).EncoderResolution then (I : ℤ) * 65536 + (f : ℤ)
        else (-(I : ℤ) - 1) * 65536 + (10000 - (f : ℤ)) := by
      rw [vP, vN]
    rw [hval]
    refine ⟨?_, ?_, ?_, ?_⟩
    · unfold INT_MIN
      split
      · exact rP1
      · exact rN1
    · unfold INT_MAX
      split
      · exact rP2
      · exact rN2
    · intro N hN
      exact absurd ((ratio_exact_iff _ _ henc).mp ⟨N, hN⟩) hd
    · intro _
      refine ⟨f, hf, by exact_mod_cast u1, by exact_mod_cast u2, ?_, ?_⟩
      · intro hp
        rw [if_pos hp]
        exact ⟨sP, vP, rfl⟩
      · intro hn
        rw [if_neg (by omega)]
        exact ⟨sN, vN, rfl⟩

/-- Witness of C15 (amended): scenario D. -/
theorem no_overflow_in_range_witness :
    InRange ((boardEnv (-1000) 200 0).MotorConfig 0) 0 ∧
    ratio ((boardEnv (-1000) 200 0).MotorConfig 0) 0 < 32768 ∧
    ∃ st', CalculateEncoderParameters (boardEnv (-1000) 200 0) 0 (fun _ _ => 0) = some st' ∧
      INT_MIN ≤ st' 0 Reg.TMC5160_ENC_CONST ∧ st' 0 Reg.TMC5160_ENC_CONST ≤ INT_MAX :=
  ⟨by decide, by norm_num [ratio, boardEnv],
    (no_overflow_in_range (boardEnv (-1000) 200 0) 0 (fun _ _ => 0) (by decide) (by decide)
      (by decide) (by norm_num [ratio, boardEnv])).2.2.elim
      fun st' h => ⟨st', h.1, h.2.1, h.2.2.1⟩⟩

/-! ## Precision of the decimal encoding -/

/-- C14 (the code at the failing input): with 48 full steps, microstep exponent
0 and encoder resolution 10000 the ratio is 1.2288, which is not a multiple of
1/65536; its integral part is 1 and 10000 times its fractional part is exactly
2288, but the code writes ENC_CONST = (1 << 16) | 2287, so the fraction field
is 2287, not `⌊F * 10000⌋ = 2288`, and the ratio equals `I + (f + 1) / 10000`
instead of being below it. -/
theorem truncation_below_floor_example :
    InRange ((boardEnv 10000 48 0).MotorConfig 0) 0 ∧
    ratio ((boardEnv 10000 48 0).MotorConfig 0) 0 = 12288 / 10000 ∧
    (¬ ∃ N : ℤ, ratio ((boardEnv 10000 48 0).MotorConfig 0) 0 * 65536 = (N : ℚ)) ∧
    ⌊ratio ((boardEnv 10000 48 0).MotorConfig 0) 0⌋ = 1 ∧
    ⌊Int.fract (ratio ((boardEnv 10000 48 0).MotorConfig 0) 0) * 10000⌋ = 2288 ∧
    (∃ st', CalculateEncoderParameters (boardEnv 10000 48 0) 0 (fun _ _ => 0) = some st' ∧
      st' 0 Reg.TMC5160_ENC_CONST = 67823 ∧
      high16 (st' 0 Reg.TMC5160_ENC_CONST) = 1 ∧
      low16 (st' 0 Reg.TMC5160_ENC_CONST) = 2287) ∧
    ratio ((boardEnv 10000 48 0).MotorConfig 0) 0 = 1 + (2287 + 1) / 10000 := by
  refine ⟨by decide, by norm_num [ratio, boardEnv],
    (ratio_exact_iff _ _ (by decide)).not.mpr (by decide),
    by rw [floor_ratio_cfg]; decide, by rw [floor_fract_ratio_cfg]; decide,
    ⟨_, CalculateEncoderParameters_of_setting (boardEnv 10000 48 0) 0 (fun _ _ => 0)
      (true, 67823) (by decide), writeSetting_ENC_CONST _ _ _ _, ?_, ?_⟩,
    by norm_num [ratio, boardEnv]⟩
  · rw [show writeSetting (boardEnv 10000 48 0).TMC5160_EM_DECIMAL
        ((boardEnv 10000 48 0).WHICH_5160 0) (fun _ _ => 0) (true, 67823) 0
        Reg.TMC5160_ENC_CONST = 67823 from writeSetting_ENC_CONST _ _ _ _]
    decide
  · rw [show writeSetting (boardEnv 10000 48 0).TMC5160_EM_DECIMAL
        ((boardEnv 10000 48 0).WHICH_5160 0) (fun _ _ => 0) (true, 67823) 0
        Reg.TMC5160_ENC_CONST = 67823 from writeSetting_ENC_CONST _ _ _ _]
    decide

/-! ## Configurations out of range -/

/-- C2 (counterexample): with 8388608 full steps, microstep exponent 0 and
encoder resolution 131072, `motorSteps = 2 ^ 31` and
`(motorSteps / |EncoderResolution|) * 65536` is the integer `N = 2 ^ 30`, which
fits a signed 32-bit word, and the encoder resolution is positive; but
`MotorSteps` wraps to `-2 ^ 31` and the code writes ENC_CONST = `-2 ^ 30`,
not `N`. -/
theorem exact_ratio_wrapped_counterexample :
    ((boardEnv 131072 8388608 0).MotorConfig 0).MotorFullStepResolution ≠ 0 ∧
    0 < ((boardEnv 131072 8388608 0).MotorConfig 0).EncoderResolution ∧
    ratio ((boardEnv 131072 8388608 0).MotorConfig 0) 0 * 65536 = ((1073741824 : ℤ) : ℚ) ∧
    INT_MIN ≤ 1073741824 ∧ (1073741824 : ℤ) ≤ INT_MAX ∧
    MotorSteps 0 8388608 = some (-2147483648) ∧
    ∃ st', CalculateEncoderParameters (boardEnv 131072 8388608 0) 0 (fun _ _ => 0) = some st' ∧
      st' 0 Reg.TMC5160_ENC_CONST = -1073741824 ∧
      st' 0 Reg.TMC5160_ENC_CONST ≠ 1073741824 := by
  refine ⟨by decide, by decide, by norm_num [ratio, boardEnv], by decide, by decide, by decide,
    _, CalculateEncoderParameters_of_setting (boardEnv 131072 8388608 0) 0 (fun _ _ => 0)
      (false, -1073741824) (by decide), writeSetting_ENC_CONST _ _ _ _, ?_⟩
  rw [show writeSetting (boardEnv 131072 8388608 0).TMC5160_EM_DECIMAL
      ((boardEnv 131072 8388608 0).WHICH_5160 0) (fun _ _ => 0) (false, -1073741824) 0
      Reg.TMC5160_ENC_CONST = -1073741824 from writeSetting_ENC_CONST _ _ _ _]
  decide

/-- C9 (counterexample): with 8388608 full steps, microstep exponent 0 and
encoder resolution `r = 393216`, `motorSteps = 2 ^ 31`, the ratio is not a
multiple of 1/65536 and its integral part is 5461, below 32768; but
`MotorSteps` wraps to `-2 ^ 31`, the code writes ENC_CONST = -3333 for `+r` and
357839893 for `-r`, and the two decode to 5.2203 and 5461.3333, which are not
opposite. -/
theorem negative_encoding_wrapped_counterexample :
    ((boardEnv 393216 8388608 0).MotorConfig 0).MotorFullStepResolution ≠ 0 ∧
    0 < ((boardEnv 393216 8388608 0).MotorConfig 0).EncoderResolution ∧
    (¬ ∃ N : ℤ, ratio ((boardEnv 393216 8388608 0).MotorConfig 0) 0 * 65536 = (N : ℚ)) ∧
    ⌊ratio ((boardEnv 393216 8388608 0).MotorConfig 0) 0⌋ = 5461 ∧
    ∃ sP sN,
      CalculateEncoderParameters (boardEnv 393216 8388608 0) 0 (fun _ _ => 0) = some sP ∧
      CalculateEncoderParameters (invertEncoder (boardEnv 393216 8388608 0)) 0 (fun _ _ => 0) =
        some sN ∧
      sP 0 Reg.TMC5160_ENC_CONST = -3333 ∧
      sN 0 Reg.TMC5160_ENC_CONST = 357839893 ∧
      decodeDecimal (sN 0 Reg.TMC5160_ENC_CONST) ≠ -decodeDecimal (sP 0 Reg.TMC5160_ENC_CONST) := by
  have hP : writeSetting (boardEnv 393216 8388608 0).TMC5160_EM_DECIMAL
      ((boardEnv 393216 8388608 0).WHICH_5160 0) (fun _ _ => 0) (true, -3333) 0
      Reg.TMC5160_ENC_CONST = -3333 := writeSetting_ENC_CONST _ _ _ _
  have hN : writeSetting (invertEncoder (boardEnv 393216 8388608 0)).TMC5160_EM_DECIMAL
      ((invertEncoder (boardEnv 393216 8388608 0)).WHICH_5160 0) (fun _ _ => 0)
      (true, 357839893) 0 Reg.TMC5160_ENC_CONST = 357839893 := writeSetting_ENC_CONST _ _ _ _
  refine ⟨by decide, by decide, (ratio_exact_iff _ _ (by decide)).not.mpr (by decide),
    by rw [floor_ratio_cfg]; decide, _, _,
    CalculateEncoderParameters_of_setting (boardEnv 393216 8388608 0) 0 (fun _ _ => 0)
      (true, -3333) (by decide),
    CalculateEncoderParameters_of_setting (invertEncoder (boardEnv 393216 8388608 0)) 0
      (fun _ _ => 0) (true, 357839893) (by decide), hP, hN, ?_⟩
  rw [hP, hN]
  have h1 : high16 (-3333) = -1 := by decide
  have h2 : low16 (-3333) = 62203 := by decide
  have h3 : high16 357839893 = 5460 := by decide
  have h4 : low16 357839893 = 13333 := by decide
  unfold decodeDecimal
  rw [h1, h2, h3, h4]
  norm_num

/-- C15 (counterexample): with 128 full steps, microstep exponent 0 and encoder
resolution `INT_MIN`, both resolutions are non-zero, `motorSteps = 32768` is
below `2 ^ 31` and the ratio `2 ^ -16` is below 32768; but the intermediate
`abs(EncoderResolution)` has the unbounded value `2 ^ 31`, which no `int`
holds: `abs` is undefined there and so is the call. -/
theorem abs_overflow_counterexample :
    ((boardEnv (-2147483648) 128 0).MotorConfig 0).MotorFullStepResolution ≠ 0 ∧
    ((boardEnv (-2147483648) 128 0).MotorConfig 0).EncoderResolution ≠ 0 ∧
    INT_MIN ≤ ((boardEnv (-2147483648) 128 0).MotorConfig 0).EncoderResolution ∧
    (boardEnv (-2147483648) 128 0).GetTMC5160ChopperMStepRes 0 ≤ 8 ∧
    2 ^ (8 - 0) * ((boardEnv (-2147483648) 128 0).MotorConfig 0).MotorFullStepResolution
      < 2147483648 ∧
    ratio ((boardEnv (-2147483648) 128 0).MotorConfig 0) 0 < 32768 ∧
    ¬ (|((boardEnv (-2147483648) 128 0).MotorConfig 0).EncoderResolution| ≤ INT_MAX) ∧
    abs32 ((boardEnv (-2147483648) 128 0).MotorConfig 0).EncoderResolution = none ∧
    CalculateEncoderParameters (boardEnv (-2147483648) 128 0) 0 (fun _ _ => 0) = none := by
  refine ⟨by decide, by decide, by decide, by decide, by decide,
    by norm_num [ratio, boardEnv], by decide, by decide, ?_⟩
  rw [CalculateEncoderParameters_eq,
    show encoderSetting ((boardEnv (-2147483648) 128 0).MotorConfig 0)
      ((boardEnv (-2147483648) 128 0).GetTMC5160ChopperMStepRes
        ((boardEnv (-2147483648) 128 0).WHICH_5160 0)) = none by decide]
  rfl

end Encoder
